import Mathlib

/-!
Verification of the selfecho mailbox synchronization and caching subsystem.

This file gives a shallow embedding, in Lean 4, of the core components of
the Go backend (`backend/internal/app/app.go`): the response list cache,
the credential vault (AES-GCM secret encryption), the MIME body decoder,
the IMAP sync engine and its persisted message cache, and the read/fallback
controller flows.  Machine integers (`uint32`, byte values) are modelled as
`Nat`; Go byte slices and the byte content of Go strings are modelled as
`List Nat` with values below 256; fallible operations return `Option` or
`Except`.  Each definition is translated from the corresponding Go
function, keeping its name where possible.
-/

/-! ### Response list cache (`listCache` in app.go)

The Go `listCache` holds a map from a printf-formatted key to a
`cachedList` value, a TTL, and hit/miss counters.  Go `time.Time` values
are modelled as `Nat` instants; `time.Since(t) > ttl` at instant `now`
becomes `now - t > ttl` (truncated `Nat` subtraction, sound because the
cache never stores an entry from the future).  Cached article items are
opaque, modelled by `Nat` identifiers. -/

structure CachedListEntry where
  items : List Nat
  total : Nat
  cachedAt : Nat
  deriving Repr, DecidableEq

structure ListCacheState where
  data : String → Option CachedListEntry
  ttl : Nat
  hits : Nat
  misses : Nat

/-- Models `listCache.key`: `fmt.Sprintf("s=%s|a=%s|p=%d|l=%d|c=%t", ...)`. -/
def listCacheKeyFn (status archive : String) (page limit : Nat) (compact : Bool) : String :=
  "s=" ++ status ++ "|a=" ++ archive ++ "|p=" ++ toString page ++ "|l=" ++ toString limit
    ++ "|c=" ++ (if compact then "true" else "false")

/-- Models `listCache.get`: a miss is recorded (and nothing returned) if the
key is absent or the entry is older than the TTL; otherwise a hit is
recorded and the entry returned.  The mutated cache is returned alongside
the result (the Go method mutates the receiver under its lock). -/
def listCacheGet (c : ListCacheState) (now : Nat) (status archive : String)
    (page limit : Nat) (compact : Bool) : Option CachedListEntry × ListCacheState :=
  let ck := listCacheKeyFn status archive page limit compact
  match c.data ck with
  | none => (none, { c with misses := c.misses + 1 })
  | some val =>
    if now - val.cachedAt > c.ttl then
      (none, { c with misses := c.misses + 1 })
    else
      (some val, { c with hits := c.hits + 1 })

/-- Models `listCache.set`: unconditionally overwrites the entry for the key
with the given items and total, stamped at the current instant. -/
def listCacheSet (c : ListCacheState) (now : Nat) (status archive : String)
    (page limit : Nat) (compact : Bool) (items : List Nat) (total : Nat) : ListCacheState :=
  { c with data := fun k =>
      if k = listCacheKeyFn status archive page limit compact then
        some { items := items, total := total, cachedAt := now }
      else c.data k }

/-- Models `listCache.invalidateAll`: replaces the map with a fresh empty one. -/
def listCacheInvalidateAll (c : ListCacheState) : ListCacheState :=
  { c with data := fun _ => none }

/-- Models the cache side effect shared by `createArticle`, `updateArticle`
and `deleteArticle`: each calls `s.cache.invalidateAll()` after a
successful write to the article store. -/
def articleWriteCacheEffect (c : ListCacheState) : ListCacheState :=
  listCacheInvalidateAll c

/-- Runs a sequence of `get` calls for one key at the given instants,
threading the cache state (no intervening writes). -/
def listCacheGetSeq (c : ListCacheState) (status archive : String)
    (page limit : Nat) (compact : Bool) (times : List Nat) : ListCacheState :=
  times.foldl (fun st t => (listCacheGet st t status archive page limit compact).2) c

/-! ### Read/fallback controller flows (`listImapMessages`, `getImapMessage`)

The two IMAP read handlers are modelled as pure decision functions over the
outcomes of the calls they make, in order: the first cache read, the
synchronous sync attempt, the cache re-read, and the direct live fetch.
Each outcome is an oracle argument (`Except String _`), so the theorems
quantify over every combination of tier outcomes the handler can observe.
The HTTP response is modelled by `HandlerOut`: `ok` for a 200 JSON body,
`fail` for an error JSON response. -/

inductive HandlerOut (α : Type) where
  | ok (body : α)
  | fail (msg : String)
  deriving Repr, DecidableEq

/-- Models `getImapMessage` (app.go 1493-1543).  A cached hit responds at
once (and spawns an async refresh).  Otherwise `lastErr` tracks the most
recent failure: the sync error and the re-read error are each recorded but
overwritten in turn, so the error surfaced after all tiers fail is the
live-fetch error.  The sync outcome (`_syncRes`) never reaches the
response: it is only logged and recorded into the overwritten `lastErr`. -/
def getImapMessageFlow {α : Type} (read1 : Except String α) (_syncRes : Except String Unit)
    (read2 : Except String α) (live : Except String α) : HandlerOut α :=
  match read1 with
  | .ok m => .ok m
  | .error _ =>
    match read2 with
    | .ok m => .ok m
    | .error _ =>
      match live with
      | .ok m => .ok m
      | .error liveErr => .fail liveErr

/-- Models `listImapMessages` (app.go 1343-1399).  A failing cache read is
surfaced immediately as a 500 (`读取邮件失败`), before any sync or live
fetch.  A non-empty cached list is a hit (async refresh, 200).  On an
empty list the handler syncs (its error only logged: `_syncRes`), re-reads
(a read error again surfaced at once), and if the list is still empty
tries the live fetch, whose failure is swallowed: the handler falls
through and responds 200 with the empty cached list. -/
def listImapMessagesFlow {α : Type} (read1 : Except String (List α))
    (_syncRes : Except String Unit) (read2 : Except String (List α))
    (live : Except String (List α)) : HandlerOut (List α) :=
  match read1 with
  | .error e => .fail e
  | .ok msgs =>
    if 0 < msgs.length then .ok msgs
    else
      match read2 with
      | .error e => .fail e
      | .ok msgs2 =>
        if msgs2.length = 0 then
          match live with
          | .ok fresh => .ok fresh
          | .error _ => .ok msgs2
        else .ok msgs2

/-! ### Byte-level text and transfer-encoding helpers

Go byte slices are `List Nat` with entries below 256.  `stringOfBytes`
models the Go conversion `string(data)` at the model's text level: each
byte becomes the character with that code point, making the conversion
injective on byte lists, which is all the body-selection logic observes. -/

def stringOfBytes (bs : List Nat) : String :=
  String.mk (bs.map Char.ofNat)

/-- Models `safeUTF8` (backend/safeutf.go) as applied to the sync engine's
already-decoded text fields (envelope subject, address, detail body):
those are carried as model-level strings, i.e. valid Unicode, on which
`bytes.ToValidUTF8` is the identity.  Where the Go code applies `safeUTF8`
to data that can hold arbitrary bytes — `parseBody`'s candidate capture —
the byte-accurate model `safeUTF8String` below is used instead. -/
def safeUTF8 (s : String) : String := s

/-- Whether `b2` is a valid second byte of a UTF-8 encoding led by `b1`
(the special ranges of Go's `utf8.acceptRanges`: E0 → A0-BF, ED → 80-9F,
F0 → 90-BF, F4 → 80-8F, otherwise 80-BF). -/
def utf8Second (b1 b2 : Nat) : Bool :=
  if b1 = 224 then decide (160 ≤ b2 ∧ b2 ≤ 191)
  else if b1 = 237 then decide (128 ≤ b2 ∧ b2 ≤ 159)
  else if b1 = 240 then decide (144 ≤ b2 ∧ b2 ≤ 191)
  else if b1 = 244 then decide (128 ≤ b2 ∧ b2 ≤ 143)
  else decide (128 ≤ b2 ∧ b2 ≤ 191)

/-- Models Go `bytes.ToValidUTF8(b, []byte{})` (the body of `safeUTF8`):
ASCII bytes and well-formed multi-byte encodings (shortest form, no
surrogates, at most U+10FFFF — `utf8.DecodeRune` acceptance) are kept; at
an ill-formed position exactly one byte is dropped (the empty replacement)
and scanning resumes, as `DecodeRune` reports size 1 there. -/
def toValidUTF8Go : Nat → List Nat → List Nat
  | 0, _ => []
  | _, [] => []
  | fuel + 1, b1 :: rest =>
    if b1 < 128 then b1 :: toValidUTF8Go fuel rest
    else if 194 ≤ b1 ∧ b1 ≤ 223 then
      match rest with
      | b2 :: rest2 =>
        if 128 ≤ b2 ∧ b2 ≤ 191 then b1 :: b2 :: toValidUTF8Go fuel rest2
        else toValidUTF8Go fuel rest
      | [] => []
    else if 224 ≤ b1 ∧ b1 ≤ 239 then
      match rest with
      | b2 :: b3 :: rest3 =>
        if utf8Second b1 b2 ∧ 128 ≤ b3 ∧ b3 ≤ 191 then
          b1 :: b2 :: b3 :: toValidUTF8Go fuel rest3
        else toValidUTF8Go fuel rest
      | _ => toValidUTF8Go fuel rest
    else if 240 ≤ b1 ∧ b1 ≤ 244 then
      match rest with
      | b2 :: b3 :: b4 :: rest4 =>
        if utf8Second b1 b2 ∧ 128 ≤ b3 ∧ b3 ≤ 191 ∧ 128 ≤ b4 ∧ b4 ≤ 191 then
          b1 :: b2 :: b3 :: b4 :: toValidUTF8Go fuel rest4
        else toValidUTF8Go fuel rest
      | _ => toValidUTF8Go fuel rest
    else toValidUTF8Go fuel rest

/-- Models Go `bytes.ToValidUTF8(b, []byte{})` (the body of `safeUTF8`):
ASCII bytes and well-formed multi-byte encodings (shortest form, no
surrogates, at most U+10FFFF — `utf8.DecodeRune` acceptance) are kept; at
an ill-formed position exactly one byte is dropped (the empty replacement)
and scanning resumes there, as `DecodeRune` reports size 1.  The scan in
`toValidUTF8Go` is driven by a fuel counter (one unit per scanned
position, at least one byte consumed per step), initialised to the input
length, which always suffices. -/
def toValidUTF8 (bs : List Nat) : List Nat :=
  toValidUTF8Go bs.length bs

/-- Models `safeUTF8(string(data))` for a raw byte slice `data`: the
sanitizer drops the ill-formed bytes and the surviving bytes form the
string (rendered through the injective `stringOfBytes`).  In particular
the result is empty exactly when no byte of `data` survives. -/
def safeUTF8String (data : List Nat) : String :=
  stringOfBytes (toValidUTF8 data)

/-- Models the per-character replacements of Go `html.EscapeString`:
ampersand, apostrophe (code 39), less-than, greater-than and double quote
(code 34) become their HTML entities. -/
def htmlEscapeChar (c : Char) : String :=
  if c = '&' then "&amp;"
  else if c.toNat = 39 then "&#39;"
  else if c = '<' then "&lt;"
  else if c = '>' then "&gt;"
  else if c.toNat = 34 then "&#34;"
  else String.singleton c

def htmlEscapeString (s : String) : String :=
  String.join (s.toList.map htmlEscapeChar)

/-- Models `strings.ReplaceAll(s, "\n", "<br>")`. -/
def replaceNewlines (s : String) : String :=
  String.join (s.toList.map (fun c => if c = '\n' then "<br>" else String.singleton c))

/-- Models `escapeText` (app.go 1641-1643). -/
def escapeText (s : String) : String :=
  replaceNewlines (htmlEscapeString s)

/-- Models Go `strings.HasPrefix(s, pre)` at the character level
(structurally recursive so that concrete instances evaluate). -/
def hasPre (s pre : String) : Bool :=
  pre.toList.isPrefixOf s.toList

/-- ASCII lowering of one character (the media types and transfer encodings
compared against are ASCII). -/
def charLower (c : Char) : Char :=
  if 65 ≤ c.toNat ∧ c.toNat ≤ 90 then Char.ofNat (c.toNat + 32) else c

/-- Models Go `strings.ToLower` on the ASCII range. -/
def strToLower (s : String) : String :=
  String.mk (s.toList.map charLower)

/-- Value of a standard base64 alphabet byte (`A-Z a-z 0-9 + /`). -/
def b64sex (b : Nat) : Option Nat :=
  if 65 ≤ b ∧ b ≤ 90 then some (b - 65)
  else if 97 ≤ b ∧ b ≤ 122 then some (b - 97 + 26)
  else if 48 ≤ b ∧ b ≤ 57 then some (b - 48 + 52)
  else if b = 43 then some 62
  else if b = 47 then some 63
  else none

/-- Standard base64 alphabet byte for a 6-bit value. -/
def b64chr (n : Nat) : Nat :=
  if n < 26 then 65 + n
  else if n < 52 then 97 + (n - 26)
  else if n < 62 then 48 + (n - 52)
  else if n = 62 then 43
  else 47

/-- Models Go `base64.StdEncoding.EncodeToString` on the underlying bytes:
groups of three bytes become four alphabet bytes, with `=` (byte 61)
padding for a final group of one or two bytes. -/
def b64encode : List Nat → List Nat
  | [] => []
  | [b1] => [b64chr (b1 / 4), b64chr (b1 % 4 * 16), 61, 61]
  | [b1, b2] => [b64chr (b1 / 4), b64chr (b1 % 4 * 16 + b2 / 16), b64chr (b2 % 16 * 4), 61]
  | b1 :: b2 :: b3 :: rest =>
    b64chr (b1 / 4) :: b64chr (b1 % 4 * 16 + b2 / 16) :: b64chr (b2 % 16 * 4 + b3 / 64)
      :: b64chr (b3 % 64) :: b64encode rest

/-- Models Go `base64.StdEncoding.DecodeString` on the underlying bytes:
the input must consist of whole four-byte groups over the alphabet, with
`=` padding only at the very end; any other shape fails. -/
def b64decode : List Nat → Option (List Nat)
  | [] => some []
  | c1 :: c2 :: c3 :: c4 :: rest =>
    match b64sex c1, b64sex c2 with
    | some s1, some s2 =>
      if c3 = 61 then
        if c4 = 61 ∧ rest = [] then some [s1 * 4 + s2 / 16] else none
      else
        match b64sex c3 with
        | some s3 =>
          if c4 = 61 then
            if rest = [] then some [s1 * 4 + s2 / 16, s2 % 16 * 16 + s3 / 4] else none
          else
            match b64sex c4 with
            | some s4 =>
              (b64decode rest).map (fun bs =>
                (s1 * 4 + s2 / 16) :: (s2 % 16 * 16 + s3 / 4) :: (s3 % 4 * 64 + s4) :: bs)
            | none => none
        | none => none
    | _, _ => none
  | _ => none

/-- Models the streaming pipeline `io.ReadAll(base64.NewDecoder(...))` with
its error discarded by the caller: whole groups are decoded until the
input is exhausted, a padding group ends the stream, and corrupt input
yields just the bytes decoded so far. -/
def b64decodeStream : List Nat → List Nat
  | c1 :: c2 :: c3 :: c4 :: rest =>
    match b64sex c1, b64sex c2 with
    | some s1, some s2 =>
      if c3 = 61 then [s1 * 4 + s2 / 16]
      else
        match b64sex c3 with
        | some s3 =>
          if c4 = 61 then [s1 * 4 + s2 / 16, s2 % 16 * 16 + s3 / 4]
          else
            match b64sex c4 with
            | some s4 =>
              (s1 * 4 + s2 / 16) :: (s2 % 16 * 16 + s3 / 4) :: (s3 % 4 * 64 + s4)
                :: b64decodeStream rest
            | none => []
        | none => []
    | _, _ => []
  | _ => []

/-- Value of an ASCII hexadecimal digit byte. -/
def hexDigitVal (b : Nat) : Option Nat :=
  if 48 ≤ b ∧ b ≤ 57 then some (b - 48)
  else if 65 ≤ b ∧ b ≤ 70 then some (b - 65 + 10)
  else if 97 ≤ b ∧ b ≤ 102 then some (b - 97 + 10)
  else none

/-- Models the streaming pipeline `io.ReadAll(quotedprintable.NewReader(...))`
with its error discarded by the caller: `=HH` escapes decode to a byte,
`=` before a line break is a soft break, corrupt escapes end the stream
with the bytes decoded so far. -/
def qpDecodeBytes : List Nat → List Nat
  | [] => []
  | b :: rest =>
    if b = 61 then
      match rest with
      | a :: b2 :: rest2 =>
        if a = 13 ∧ b2 = 10 then qpDecodeBytes rest2
        else if a = 10 then qpDecodeBytes (b2 :: rest2)
        else
          match hexDigitVal a, hexDigitVal b2 with
          | some ha, some hb => (16 * ha + hb) :: qpDecodeBytes rest2
          | _, _ => []
      | _ => []
    else b :: qpDecodeBytes rest
termination_by l => l.length
decreasing_by all_goals simp <;> omega

/-! ### MIME body decoder (`parseBody`, app.go 1603-1639)

`parseBody` receives a body reader.  The reader's observable behaviour is
modelled by `BodyStream`: a nil reader, a stream on which
`mail.CreateReader` fails up front (carrying the bytes still readable
afterwards), or a parsed stream whose part walk yields a list of parts and
then either EOF (`none`) or a mid-walk `NextPart` error (`some e`).  A
part records whether its header is a `*mail.InlineHeader`, its media type
from `ContentType()`, its `Content-Transfer-Encoding` header, and its body
bytes. -/

structure MailPart where
  inlineHeader : Bool
  contentType : String
  cte : String
  body : List Nat

inductive BodyStream where
  | noBody
  | unparsable (raw : List Nat)
  | parsed (parts : List MailPart) (walkErr : Option String)

/-- Models `decodePart` (app.go 1645-1657) together with its call sites
`data, _ := decodePart(ih, p.Body)`: dispatch on the lower-cased declared
transfer encoding; base64 and quoted-printable run through the streaming
decoders above, anything else passes the bytes through unchanged. -/
def decodePart (cte : String) (body : List Nat) : List Nat :=
  if strToLower cte = "base64" then b64decodeStream body
  else if strToLower cte = "quoted-printable" then qpDecodeBytes body
  else body

/-- One iteration of the `parseBody` part walk over the candidate state
`(htmlBody, textBody)`: an inline `text/html` part with non-empty RAW
decoded data overwrites the HTML candidate with its SANITIZED content
(`safeUTF8(string(data))`), which may itself be empty when every byte is
invalid UTF-8; otherwise an inline `text/plain` part is captured (also
sanitized) only if no plain candidate was recorded yet.  (Go binds
`data, _ := decodePart(ih, p.Body)` once; `decodePart` is pure, so it is
written inline here.) -/
def partsStep (acc : String × String) (p : MailPart) : String × String :=
  if p.inlineHeader then
    if hasPre p.contentType "text/html" ∧ 0 < (decodePart p.cte p.body).length then
      (safeUTF8String (decodePart p.cte p.body), acc.2)
    else if hasPre p.contentType "text/plain" ∧ acc.2 = "" then
      (acc.1, safeUTF8String (decodePart p.cte p.body))
    else acc
  else acc

/-- Models `parseBody` (app.go 1603-1639).  A nil body yields the empty
string; an up-front parse failure degrades to the HTML-escaped raw bytes
with no error; otherwise the parts are walked (a mid-walk error is
returned as a hard error) and the HTML candidate is preferred, then the
escaped plain candidate, then the empty string. -/
def parseBody : BodyStream → Except String String
  | .noBody => .ok ""
  | .unparsable raw => .ok (escapeText (stringOfBytes raw))
  | .parsed parts walkErr =>
    match walkErr with
    | some e => .error e
    | none =>
      let acc := parts.foldl partsStep ("", "")
      if acc.1 ≠ "" then .ok acc.1
      else if acc.2 ≠ "" then .ok (escapeText acc.2)
      else .ok ""

/-- A part that (re)writes the HTML candidate when the walk reaches it: an
inline part of media type `text/html` with non-empty RAW decoded data (its
sanitized content, the value actually stored, may still be empty). -/
def isHtmlCandidate (p : MailPart) : Bool :=
  p.inlineHeader && hasPre p.contentType "text/html"
    && decide (0 < (decodePart p.cte p.body).length)

/-- A part that effectively determines the plain-text candidate: an inline
part of media type `text/plain`, not taken by the HTML branch, whose
SANITIZED decoded data is non-empty (a capture that sanitizes to the empty
string leaves the candidate state unchanged). -/
def isPlainCandidate (p : MailPart) : Bool :=
  p.inlineHeader
    && !(hasPre p.contentType "text/html"
          && decide (0 < (decodePart p.cte p.body).length))
    && hasPre p.contentType "text/plain"
    && decide (safeUTF8String (decodePart p.cte p.body) ≠ "")

/-! ### Credential vault (`encryptSecret` / `decryptSecret`, app.go 561-606)

The Go vault derives a 32-byte key (`sha256.Sum256` of the configured
passphrase) and seals secrets with AES-256-GCM: `encryptSecret` draws a
fresh 12-byte random nonce and returns
`base64(gcm.Seal(nonce, nonce, plaintext, nil))` = base64(nonce ‖
ciphertext ‖ tag); `decryptSecret` reverses this.  The embedding keeps the
GCM mode structure concrete — counter-mode encryption and a GHASH tag
masked by the counter-1 block — and abstracts exactly the keyed AES block
permutation as a function argument `E` on 16-byte blocks, so the theorems
quantify over every key.  The fresh nonce is likewise passed explicitly. -/

def xorBytes : List Nat → List Nat → List Nat
  | p :: ps, k :: ks => (p ^^^ k) :: xorBytes ps ks
  | _, _ => []

/-- Big-endian 32-bit counter bytes. -/
def be32 (n : Nat) : List Nat :=
  [n / 2 ^ 24 % 256, n / 2 ^ 16 % 256, n / 2 ^ 8 % 256, n % 256]

/-- The GCM counter block for a 12-byte nonce: nonce ‖ counter. -/
def ctrBlock (nonce : List Nat) (i : Nat) : List Nat :=
  nonce ++ be32 i

/-- Counter-mode keystream blocks `E(nonce ‖ i), E(nonce ‖ i+1), ...`. -/
def keystreamFrom (E : List Nat → List Nat) (nonce : List Nat) : Nat → Nat → List Nat
  | _, 0 => []
  | i, n + 1 => E (ctrBlock nonce i) ++ keystreamFrom E nonce (i + 1) n

/-- GCM data keystream: data counters start at 2 (counter 1 masks the tag). -/
def keystream (E : List Nat → List Nat) (nonce : List Nat) (nblocks : Nat) : List Nat :=
  keystreamFrom E nonce 2 nblocks

/-- Counter-mode body processing: XOR with the keystream, truncated to the
data length (GCM encryption and decryption are the same operation). -/
def ctrCrypt (E : List Nat → List Nat) (nonce data : List Nat) : List Nat :=
  xorBytes data (keystream E nonce ((data.length + 15) / 16))

def bytesToNat (bs : List Nat) : Nat :=
  bs.foldl (fun a b => a * 256 + b) 0

def natToBytes16 (x : Nat) : List Nat :=
  (List.range 16).map (fun i => x / 256 ^ (15 - i) % 256)

/-- Multiplication in GF(2^128) with the GCM reduction constant. -/
def gf128mul (x y : Nat) : Nat :=
  ((List.range 128).foldl
    (fun st i =>
      let z := if y / 2 ^ (127 - i) % 2 = 1 then st.1 ^^^ st.2 else st.1
      let v := if st.2 % 2 = 1 then st.2 / 2 ^^^ 0xe1000000000000000000000000000000
               else st.2 / 2
      (z, v))
    ((0 : Nat), x)).1

/-- GHASH over whole 16-byte blocks (represented as 128-bit numbers). -/
def ghash (h : Nat) (blocks : List Nat) : Nat :=
  blocks.foldl (fun acc b => gf128mul (acc ^^^ b) h) 0

/-- Split a byte list into 16-byte blocks, zero-padding the last. -/
def blocks16 : List Nat → List Nat
  | [] => []
  | b :: bs =>
    bytesToNat ((b :: bs).take 16 ++ List.replicate (16 - (b :: bs).length) 0)
      :: blocks16 ((b :: bs).drop 16)
termination_by bs => bs.length
decreasing_by simp [List.length_drop]; omega

/-- The GCM tag over a ciphertext with no additional data: GHASH of the
padded ciphertext and the bit-length block, masked with `E(nonce ‖ 1)`. -/
def gcmTag (E : List Nat → List Nat) (nonce ct : List Nat) : List Nat :=
  let h := bytesToNat (E (List.replicate 16 0))
  let sTag := ghash h (blocks16 ct ++ [8 * ct.length])
  xorBytes (natToBytes16 sTag) (E (ctrBlock nonce 1))

/-- Models `gcm.Seal(nil, nonce, plaintext, nil)`: ciphertext ‖ tag. -/
def gcmSeal (E : List Nat → List Nat) (nonce pt : List Nat) : List Nat :=
  ctrCrypt E nonce pt ++ gcmTag E nonce (ctrCrypt E nonce pt)

/-- Models `gcm.Open(nil, nonce, data, nil)`: reject undersized data or a
mismatched authentication tag, otherwise decrypt. -/
def gcmOpen (E : List Nat → List Nat) (nonce data : List Nat) : Option (List Nat) :=
  if data.length < 16 then none
  else
    if data.drop (data.length - 16) = gcmTag E nonce (data.take (data.length - 16)) then
      some (ctrCrypt E nonce (data.take (data.length - 16)))
    else none

/-- Models `encryptSecret` (app.go 570-582), with the keyed AES block
permutation `E` and the fresh random nonce passed explicitly:
`base64.StdEncoding.EncodeToString(gcm.Seal(nonce, nonce, plaintext, nil))`,
whose payload is nonce ‖ ciphertext ‖ tag. -/
def encryptSecret (E : List Nat → List Nat) (nonce plaintext : List Nat) : List Nat :=
  b64encode (nonce ++ gcmSeal E nonce plaintext)

/-- Models `decryptSecret` (app.go 584-606): base64-decode (failure is an
error), reject payloads shorter than one nonce (`ciphertext too short`),
then split the nonce off and open. -/
def decryptSecret (E : List Nat → List Nat) (cipherText : List Nat) : Option (List Nat) :=
  match b64decode cipherText with
  | none => none
  | some raw =>
    if raw.length < 12 then none
    else gcmOpen E (raw.take 12) (raw.drop 12)

/-! ### IMAP data model, account selection and sync engine

`imapAccount` rows (table `imap_accounts`) and cached message rows (table
`imap_messages`, unique on `(account_id, uid, uidvalidity)`) are modelled
directly; `uint32`/`BIGINT` values are `Nat`, UUIDs are `Nat` identifiers,
timestamps are `Nat` instants, and the Go string holding the (possibly
encrypted) password is its byte list.  The database holds the message rows
plus the two per-account watermark columns as maps from account id. -/

structure ImapAccount where
  id : Nat
  host : String
  port : Nat
  username : String
  password : List Nat
  useSSL : Bool
  useStartTLS : Bool
  lastUID : Nat
  lastUIDValidity : Nat
  createdAt : Nat

structure MsgRow where
  accountId : Nat
  uid : Nat
  uidvalidity : Nat
  subject : String
  fromAddr : String
  msgDate : Option Nat
  flags : String
  bodyHtml : String
  bodyPlain : String

structure ImapDb where
  msgs : List MsgRow
  lastUid : Nat → Nat
  lastUidValidity : Nat → Nat

/-- Models the secret-handling step of `pickImapAccount` (app.go
1415-1419): when a vault key is configured and the stored password is
non-empty, try to decrypt it; the decrypted value replaces the password
ONLY when decryption succeeds (`err == nil`) — on failure the encrypted
blob is silently kept and no error is reported. -/
def pickImapAccountPassword (imapKey : Option (List Nat → List Nat))
    (stored : List Nat) : List Nat :=
  match imapKey with
  | none => stored
  | some key =>
    if stored ≠ [] then
      match decryptSecret key stored with
      | some plain => plain
      | none => stored
    else stored

/-- Models `pickImapAccount` (app.go 1401-1421) after a successful row
scan: the account is returned with the password run through the decryption
step; a vault failure never produces an error here. -/
def pickImapAccount (imapKey : Option (List Nat → List Nat)) (row : ImapAccount) :
    Except String ImapAccount :=
  Except.ok { row with password := pickImapAccountPassword imapKey row.password }

/-- The credentials `syncImapAccount` hands to `c.Login` (app.go 1688):
whatever is in the account's password field at that point. -/
def syncLoginArgs (acc : ImapAccount) : String × List Nat :=
  (acc.username, acc.password)

/-- One entry delivered by the envelope/flags/UID window fetch
(app.go 1711-1727; rows with a nil envelope are already skipped). -/
structure FetchedEnv where
  uid : Nat
  envDate : Nat

/-- The observable result of one per-message detail round trip
(`fetchImapMessageDetail`); `date` is the already-parsed RFC3339 `Date`
field (`none` when empty or unparseable). -/
structure MsgDetail where
  subject : String
  fromAddr : String
  date : Option Nat
  flags : List String
  body : String

/-- What the remote session answers during one sync run: the `SELECT`
result (`messageCount`, `uidValidity` = mbox.Messages / mbox.UidValidity),
the window fetch output in channel order, and the per-UID detail fetch
(`none` models a failed round trip, which the loop skips with
`continue`). -/
structure SyncRemote where
  messageCount : Nat
  uidValidity : Nat
  fetched : List FetchedEnv
  detail : Nat → Option MsgDetail

/-- `DELETE FROM imap_messages WHERE account_id=$1`. -/
def deleteAccountMsgs (msgs : List MsgRow) (accId : Nat) : List MsgRow :=
  msgs.filter (fun m => !(m.accountId == accId))

/-- The `INSERT ... ON CONFLICT (account_id, uid, uidvalidity) DO UPDATE`
upsert (app.go 1770-1776): any row with the same key is replaced. -/
def upsertMsg (msgs : List MsgRow) (r : MsgRow) : List MsgRow :=
  msgs.filter (fun m =>
    !(m.accountId == r.accountId && m.uid == r.uid && m.uidvalidity == r.uidvalidity)) ++ [r]

/-- `SELECT COUNT(*) FROM imap_messages WHERE account_id=$1`. -/
def countAccountMsgs (msgs : List MsgRow) (accId : Nat) : Nat :=
  (msgs.filter (fun m => m.accountId == accId)).length

/-- UIDs of the rows persisted for one account and one epoch. -/
def epochUIDs (msgs : List MsgRow) (accId epoch : Nat) : List Nat :=
  (msgs.filter (fun m => m.accountId == accId && m.uidvalidity == epoch)).map
    (fun m => m.uid)

/-- Maximum persisted UID for one account and epoch (0 when no rows). -/
def maxPersistedUID (msgs : List MsgRow) (accId epoch : Nat) : Nat :=
  (epochUIDs msgs accId epoch).foldr max 0

/-- The empty-mailbox branch of `syncImapAccount` (app.go 1696-1702):
delete all cached rows for the account, persist `last_uid = 0` and the
observed epoch, mirror both into the in-memory account, and return. -/
def syncEmptyReset (db : ImapDb) (acc : ImapAccount) (uidValidity : Nat) :
    ImapDb × ImapAccount :=
  ({ msgs := deleteAccountMsgs db.msgs acc.id,
     lastUid := fun i => if i = acc.id then 0 else db.lastUid i,
     lastUidValidity := fun i => if i = acc.id then uidValidity else db.lastUidValidity i },
   { acc with lastUID := 0, lastUIDValidity := uidValidity })

/-- The epoch-rollover reset inside the transaction (app.go 1734-1740): if
the stored epoch is non-zero and differs from the observed one, delete all
cached rows for the account and zero the in-memory watermark. -/
def syncEpochReset (db : ImapDb) (acc : ImapAccount) (uidValidity : Nat) :
    ImapDb × ImapAccount :=
  if acc.lastUIDValidity ≠ 0 ∧ acc.lastUIDValidity ≠ uidValidity then
    ({ db with msgs := deleteAccountMsgs db.msgs acc.id }, { acc with lastUID := 0 })
  else (db, acc)

/-- One iteration of the fetch loop (app.go 1743-1780) over the state
`(maxUID, msgs)`: entries at or below the watermark are skipped; otherwise
`maxUID` is raised FIRST, then the detail fetch runs — a failed detail
fetch skips the row insert but keeps the raised `maxUID`.  (Go computes
the branch-independent `maxUID` update once before the fetch; it is
duplicated per branch here.) -/
def syncStep (r : SyncRemote) (acc : ImapAccount) (st : Nat × List MsgRow)
    (e : FetchedEnv) : Nat × List MsgRow :=
  if e.uid ≤ acc.lastUID then st
  else
    match r.detail e.uid with
    | none => (if e.uid > st.1 then e.uid else st.1, st.2)
    | some d =>
      (if e.uid > st.1 then e.uid else st.1,
        upsertMsg st.2
          { accountId := acc.id, uid := e.uid, uidvalidity := r.uidValidity,
            subject := safeUTF8 d.subject, fromAddr := safeUTF8 d.fromAddr,
            msgDate := (match d.date with | some t => some t | none => some e.envDate),
            flags := String.intercalate " " d.flags,
            bodyHtml := safeUTF8 d.body, bodyPlain := "" })

/-- The fetch loop: Go iterates `fetched` from the last index down to 0
("ensure ascending insert"), i.e. left-to-right over the reversed list. -/
def syncLoop (r : SyncRemote) (acc : ImapAccount) (init : Nat × List MsgRow) :
    Nat × List MsgRow :=
  r.fetched.reverse.foldl (syncStep r acc) init

/-- Models `syncImapAccount` (app.go 1669-1790) from the point where the
session is open and `SELECT INBOX` has answered (connection, STARTTLS,
login, select or fetch failures abort earlier with the database
untouched).  The empty-mailbox branch resets; otherwise the epoch-rollover
reset runs inside the transaction, the loop starts from
`maxUID := acc.LastUID`, and the commit persists the new message rows
together with `last_uid = maxUID` and the observed epoch, mirroring both
into the in-memory account. -/
def syncImapAccount (db : ImapDb) (acc : ImapAccount) (r : SyncRemote) :
    ImapDb × ImapAccount :=
  if r.messageCount = 0 then
    syncEmptyReset db acc r.uidValidity
  else
    ({ msgs := (syncLoop r (syncEpochReset db acc r.uidValidity).2
          ((syncEpochReset db acc r.uidValidity).2.lastUID,
            (syncEpochReset db acc r.uidValidity).1.msgs)).2,
       lastUid := fun i =>
         if i = (syncEpochReset db acc r.uidValidity).2.id then
           (syncLoop r (syncEpochReset db acc r.uidValidity).2
             ((syncEpochReset db acc r.uidValidity).2.lastUID,
               (syncEpochReset db acc r.uidValidity).1.msgs)).1
         else (syncEpochReset db acc r.uidValidity).1.lastUid i,
       lastUidValidity := fun i =>
         if i = (syncEpochReset db acc r.uidValidity).2.id then r.uidValidity
         else (syncEpochReset db acc r.uidValidity).1.lastUidValidity i },
     { (syncEpochReset db acc r.uidValidity).2 with
        lastUID := (syncLoop r (syncEpochReset db acc r.uidValidity).2
          ((syncEpochReset db acc r.uidValidity).2.lastUID,
            (syncEpochReset db acc r.uidValidity).1.msgs)).1,
        lastUIDValidity := r.uidValidity })

/-! ### Theorems: response list cache (C9) -/

theorem listCacheGet_miss_absent (c : ListCacheState) (now : Nat) (s a : String)
    (p l : Nat) (cp : Bool) (h : c.data (listCacheKeyFn s a p l cp) = none) :
    listCacheGet c now s a p l cp = (none, { c with misses := c.misses + 1 }) := by
  simp only [listCacheGet, h]

theorem listCacheGet_hit (c : ListCacheState) (now : Nat) (s a : String)
    (p l : Nat) (cp : Bool) (v : CachedListEntry)
    (h : c.data (listCacheKeyFn s a p l cp) = some v)
    (hfresh : ¬ now - v.cachedAt > c.ttl) :
    listCacheGet c now s a p l cp = (some v, { c with hits := c.hits + 1 }) := by
  simp only [listCacheGet, h]
  simp [hfresh]

theorem listCacheGet_miss_expired (c : ListCacheState) (now : Nat) (s a : String)
    (p l : Nat) (cp : Bool) (v : CachedListEntry)
    (h : c.data (listCacheKeyFn s a p l cp) = some v)
    (hexp : now - v.cachedAt > c.ttl) :
    listCacheGet c now s a p l cp = (none, { c with misses := c.misses + 1 }) := by
  simp only [listCacheGet, h]
  simp [hexp]

theorem listCacheGetSeq_all_hits (s a : String) (p l : Nat) (cp : Bool)
    (v : CachedListEntry) (times : List Nat) :
    ∀ c : ListCacheState, c.data (listCacheKeyFn s a p l cp) = some v →
    (∀ t ∈ times, ¬ t - v.cachedAt > c.ttl) →
    (listCacheGetSeq c s a p l cp times).hits = c.hits + times.length ∧
    (listCacheGetSeq c s a p l cp times).misses = c.misses ∧
    (listCacheGetSeq c s a p l cp times).data = c.data ∧
    (listCacheGetSeq c s a p l cp times).ttl = c.ttl := by
  induction times with
  | nil => intro c _ _; simp [listCacheGetSeq]
  | cons t ts ih =>
    intro c hdata hin
    have hstep := listCacheGet_hit c t s a p l cp v hdata (hin t (by simp))
    have hseq : listCacheGetSeq c s a p l cp (t :: ts)
        = listCacheGetSeq { c with hits := c.hits + 1 } s a p l cp ts := by
      simp [listCacheGetSeq, hstep]
    have ih' := ih { c with hits := c.hits + 1 } hdata (fun t' ht' => hin t' (by simp [ht']))
    rw [hseq]
    refine ⟨?_, ?_, ?_, ?_⟩
    · rw [ih'.1]; simp; omega
    · exact ih'.2.1
    · exact ih'.2.2.1
    · exact ih'.2.2.2

/-- Claim C9: list-cache semantics.  A `get` misses exactly when the key is
absent or older than the TTL (an absent key misses, a present entry with
`now - cachedAt > ttl` misses, and a present entry within the TTL hits,
returning the entry); `set` unconditionally overwrites; a run of one miss,
a `set`, and N−1 further gets of the same key inside the TTL window
records exactly 1 miss and N−1 hits; and after `invalidateAll` (called on
every article-store write) the next get of every key misses even inside
the TTL. -/
theorem c9_list_cache_semantics (c0 : ListCacheState) (s a : String) (p l : Nat)
    (cp : Bool) (items : List Nat) (total t0 t1 : Nat) (times : List Nat)
    (habsent : c0.data (listCacheKeyFn s a p l cp) = none)
    (hwithin : ∀ t ∈ times, ¬ t - t1 > c0.ttl) :
    (listCacheGet c0 t0 s a p l cp).1 = none ∧
    (listCacheGetSeq
        (listCacheSet (listCacheGet c0 t0 s a p l cp).2 t1 s a p l cp items total)
        s a p l cp times).misses = c0.misses + 1 ∧
    (listCacheGetSeq
        (listCacheSet (listCacheGet c0 t0 s a p l cp).2 t1 s a p l cp items total)
        s a p l cp times).hits = c0.hits + times.length ∧
    (∀ c : ListCacheState, ∀ now : Nat, ∀ it : List Nat, ∀ tot : Nat,
        (listCacheSet c now s a p l cp it tot).data (listCacheKeyFn s a p l cp)
          = some { items := it, total := tot, cachedAt := now }) ∧
    (∀ c : ListCacheState, ∀ now : Nat,
        (listCacheGet (articleWriteCacheEffect c) now s a p l cp).1 = none ∧
        (listCacheGet (articleWriteCacheEffect c) now s a p l cp).2.misses
          = c.misses + 1) ∧
    (∀ c : ListCacheState, ∀ now : Nat, ∀ v : CachedListEntry,
        c.data (listCacheKeyFn s a p l cp) = some v → now - v.cachedAt > c.ttl →
        (listCacheGet c now s a p l cp).1 = none ∧
        (listCacheGet c now s a p l cp).2.misses = c.misses + 1) ∧
    (∀ c : ListCacheState, ∀ now : Nat, ∀ v : CachedListEntry,
        c.data (listCacheKeyFn s a p l cp) = some v → ¬ now - v.cachedAt > c.ttl →
        (listCacheGet c now s a p l cp).1 = some v ∧
        (listCacheGet c now s a p l cp).2.hits = c.hits + 1) := by
  have hmiss := listCacheGet_miss_absent c0 t0 s a p l cp habsent
  set c1 : ListCacheState := { c0 with misses := c0.misses + 1 } with hc1
  have hget1 : (listCacheGet c0 t0 s a p l cp).2 = c1 := by rw [hmiss]
  set c2 := listCacheSet c1 t1 s a p l cp items total with hc2
  have hc2data : c2.data (listCacheKeyFn s a p l cp)
      = some { items := items, total := total, cachedAt := t1 } := by
    simp [hc2, listCacheSet]
  have hc2ttl : c2.ttl = c0.ttl := by simp [hc2, listCacheSet, hc1]
  have hseq := listCacheGetSeq_all_hits s a p l cp
      { items := items, total := total, cachedAt := t1 } times c2 hc2data
      (fun t ht => by simpa [hc2ttl] using hwithin t ht)
  refine ⟨by rw [hmiss], ?_, ?_, ?_, ?_, ?_, ?_⟩
  · rw [hget1, ← hc2, hseq.2.1]; simp [hc2, listCacheSet, hc1]
  · rw [hget1, ← hc2, hseq.1]; simp [hc2, listCacheSet, hc1]
  · intro c now it tot; simp [listCacheSet]
  · intro c now
    have : (articleWriteCacheEffect c).data (listCacheKeyFn s a p l cp) = none := rfl
    rw [listCacheGet_miss_absent _ now s a p l cp this]
    exact ⟨rfl, rfl⟩
  · intro c now v hdata hexp
    rw [listCacheGet_miss_expired c now s a p l cp v hdata hexp]
    exact ⟨rfl, rfl⟩
  · intro c now v hdata hfresh
    rw [listCacheGet_hit c now s a p l cp v hdata hfresh]
    exact ⟨rfl, rfl⟩

/-- Claim C9 witness: a concrete run (key absent, one miss, a set, three
in-window gets) exercising every hypothesis of the list-cache theorem. -/
theorem c9_list_cache_semantics_witness :
    ((⟨fun _ => none, 30, 0, 0⟩ : ListCacheState).data
        (listCacheKeyFn "published" "" 1 12 false) = none) ∧
    (∀ t ∈ [6, 7, 35], ¬ t - 5 > (⟨fun _ => none, 30, 0, 0⟩ : ListCacheState).ttl) ∧
    ((listCacheGetSeq
        (listCacheSet (listCacheGet ⟨fun _ => none, 30, 0, 0⟩ 0 "published" "" 1 12 false).2
          5 "published" "" 1 12 false [1, 2] 2)
        "published" "" 1 12 false [6, 7, 35]).misses = 0 + 1 ∧
     (listCacheGetSeq
        (listCacheSet (listCacheGet ⟨fun _ => none, 30, 0, 0⟩ 0 "published" "" 1 12 false).2
          5 "published" "" 1 12 false [1, 2] 2)
        "published" "" 1 12 false [6, 7, 35]).hits = 0 + 3) :=
  ⟨rfl, by decide,
    (c9_list_cache_semantics ⟨fun _ => none, 30, 0, 0⟩ "published" "" 1 12 false
      [1, 2] 2 0 5 [6, 7, 35] rfl (by decide)).2.1,
    (c9_list_cache_semantics ⟨fun _ => none, 30, 0, 0⟩ "published" "" 1 12 false
      [1, 2] 2 0 5 [6, 7, 35] rfl (by decide)).2.2.1⟩

/-! ### Theorems: read/fallback controller (C2) -/

/-- Claim C2 counterexample: in the list-messages handler a tier-1 cache
read failure is surfaced to the caller immediately, even though the
sync-plus-re-read tier and the live-fetch tier (here both set up to
succeed) were never consulted — so an error can be surfaced without all
three tiers having failed. -/
theorem c2_error_only_after_three_tiers_counterexample :
    listImapMessagesFlow (Except.error "cache read failed") (Except.ok ())
      (Except.ok [1]) (Except.ok [1]) = HandlerOut.fail "cache read failed" := rfl

/-- Claim C2 (amended): the get-one-message handler surfaces an error to
its caller exactly when all three tiers (cache read, sync followed by
re-read, live fetch) have failed, and the surfaced error is the one
observed last, the live-fetch failure.  The list-messages handler differs:
a cache read or re-read failure is surfaced at once without attempting the
remaining tiers, and when the cache is empty and the live fetch also fails
it responds with an empty success rather than an error. -/
theorem c2_error_surfacing_amended :
    (∀ α : Type, ∀ read1 read2 live : Except String α, ∀ syncRes : Except String Unit,
      ((∃ e, getImapMessageFlow read1 syncRes read2 live = HandlerOut.fail e) ↔
        (∃ e1 e2 e3, read1 = Except.error e1 ∧ read2 = Except.error e2 ∧
          live = Except.error e3)) ∧
      (∀ e1 e2 e3, read1 = Except.error e1 → read2 = Except.error e2 →
        live = Except.error e3 →
        getImapMessageFlow read1 syncRes read2 live = HandlerOut.fail e3)) ∧
    (∀ α : Type, ∀ e : String, ∀ syncRes : Except String Unit,
      ∀ read2 live : Except String (List α),
      listImapMessagesFlow (Except.error e) syncRes read2 live = HandlerOut.fail e) ∧
    (∀ α : Type, ∀ e : String, ∀ syncRes : Except String Unit,
      ∀ live : Except String (List α),
      listImapMessagesFlow (Except.ok []) syncRes (Except.error e) live
        = HandlerOut.fail e) ∧
    (∀ α : Type, ∀ el : String, ∀ syncRes : Except String Unit,
      listImapMessagesFlow (α := α) (Except.ok []) syncRes (Except.ok [])
        (Except.error el) = HandlerOut.ok []) := by
  refine ⟨?_, ?_, ?_, ?_⟩
  · intro α read1 read2 live syncRes
    constructor
    · constructor
      · rintro ⟨e, he⟩
        cases read1 with
        | ok m => simp [getImapMessageFlow] at he
        | error e1 =>
          cases read2 with
          | ok m => simp [getImapMessageFlow] at he
          | error e2 =>
            cases live with
            | ok m => simp [getImapMessageFlow] at he
            | error e3 => exact ⟨e1, e2, e3, rfl, rfl, rfl⟩
      · rintro ⟨e1, e2, e3, h1, h2, h3⟩
        subst h1; subst h2; subst h3
        exact ⟨e3, rfl⟩
    · intro e1 e2 e3 h1 h2 h3
      subst h1; subst h2; subst h3
      rfl
  · intro α e syncRes read2 live; rfl
  · intro α e syncRes live; rfl
  · intro α el syncRes; rfl

/-! ### Theorems: MIME body decoder (C3, C4) -/

theorem stringOfBytes_eq_empty_iff (bs : List Nat) : stringOfBytes bs = "" ↔ bs = [] := by
  constructor
  · intro h
    cases bs with
    | nil => rfl
    | cons b t =>
      exfalso
      have hd : (stringOfBytes (b :: t)).data = ("" : String).data := by rw [h]
      simp [stringOfBytes] at hd
  · intro h; subst h; rfl

theorem isHtmlCandidate_iff (p : MailPart) :
    isHtmlCandidate p = true ↔
      p.inlineHeader = true ∧ hasPre p.contentType "text/html" = true ∧
        0 < (decodePart p.cte p.body).length := by
  simp [isHtmlCandidate, and_assoc]

theorem isPlainCandidate_iff (p : MailPart) :
    isPlainCandidate p = true ↔
      p.inlineHeader = true ∧
      ¬(hasPre p.contentType "text/html" = true ∧
          0 < (decodePart p.cte p.body).length) ∧
      hasPre p.contentType "text/plain" = true ∧
      safeUTF8String (decodePart p.cte p.body) ≠ "" := by
  simp [isPlainCandidate, and_assoc, not_and, Decidable.imp_iff_not_or]

theorem safeUTF8String_eq_empty_iff (data : List Nat) :
    safeUTF8String data = "" ↔ toValidUTF8 data = [] := by
  unfold safeUTF8String
  exact stringOfBytes_eq_empty_iff _

theorem partsStep_fst (acc : String × String) (p : MailPart) :
    (partsStep acc p).1 =
      if isHtmlCandidate p = true then safeUTF8String (decodePart p.cte p.body)
      else acc.1 := by
  unfold partsStep
  by_cases h1 : p.inlineHeader = true
  · by_cases h2 : hasPre p.contentType "text/html" = true ∧
        0 < (decodePart p.cte p.body).length
    · have hc : isHtmlCandidate p = true := (isHtmlCandidate_iff p).2 ⟨h1, h2.1, h2.2⟩
      rw [if_pos h1, if_pos h2, if_pos hc]
    · have hc : ¬ isHtmlCandidate p = true := fun hh =>
        h2 ⟨((isHtmlCandidate_iff p).1 hh).2.1, ((isHtmlCandidate_iff p).1 hh).2.2⟩
      rw [if_pos h1, if_neg h2, if_neg hc]
      by_cases h3 : hasPre p.contentType "text/plain" = true ∧ acc.2 = ""
      · rw [if_pos h3]
      · rw [if_neg h3]
  · have hc : ¬ isHtmlCandidate p = true := fun hh => h1 ((isHtmlCandidate_iff p).1 hh).1
    rw [if_neg h1, if_neg hc]

theorem partsStep_snd (acc : String × String) (p : MailPart) :
    (partsStep acc p).2 =
      if isPlainCandidate p = true ∧ acc.2 = "" then
        safeUTF8String (decodePart p.cte p.body)
      else acc.2 := by
  unfold partsStep
  by_cases h1 : p.inlineHeader = true
  · by_cases h2 : hasPre p.contentType "text/html" = true ∧
        0 < (decodePart p.cte p.body).length
    · have hnc : ¬ (isPlainCandidate p = true ∧ acc.2 = "") := fun hh =>
        ((isPlainCandidate_iff p).1 hh.1).2.1 h2
      rw [if_pos h1, if_pos h2, if_neg hnc]
    · by_cases h3 : hasPre p.contentType "text/plain" = true ∧ acc.2 = ""
      · by_cases h4 : safeUTF8String (decodePart p.cte p.body) ≠ ""
        · have hc : isPlainCandidate p = true :=
            (isPlainCandidate_iff p).2 ⟨h1, h2, h3.1, h4⟩
          rw [if_pos h1, if_neg h2, if_pos h3, if_pos ⟨hc, h3.2⟩]
        · have heq : safeUTF8String (decodePart p.cte p.body) = "" := not_not.mp h4
          have hnc : ¬ (isPlainCandidate p = true ∧ acc.2 = "") := fun hh =>
            h4 ((isPlainCandidate_iff p).1 hh.1).2.2.2
          rw [if_pos h1, if_neg h2, if_pos h3, if_neg hnc, heq, h3.2]
      · have hnc : ¬ (isPlainCandidate p = true ∧ acc.2 = "") := fun hh =>
          h3 ⟨((isPlainCandidate_iff p).1 hh.1).2.2.1, hh.2⟩
        rw [if_pos h1, if_neg h2, if_neg h3, if_neg hnc]
  · have hnc : ¬ (isPlainCandidate p = true ∧ acc.2 = "") := fun hh =>
      h1 ((isPlainCandidate_iff p).1 hh.1).1
    rw [if_neg h1, if_neg hnc]

theorem partsFold_fst (parts : List MailPart) :
    ∀ acc : String × String,
    (parts.foldl partsStep acc).1 =
      match parts.reverse.find? isHtmlCandidate with
      | some p => safeUTF8String (decodePart p.cte p.body)
      | none => acc.1 := by
  induction parts with
  | nil => intro acc; rfl
  | cons p ps ih =>
    intro acc
    rw [List.foldl_cons, ih (partsStep acc p), List.reverse_cons, List.find?_append]
    cases h : List.find? isHtmlCandidate ps.reverse with
    | some q => simp [h]
    | none =>
      simp only [h, Option.none_orElse]
      rw [partsStep_fst]
      by_cases hc : isHtmlCandidate p = true
      · simp [List.find?, hc]
      · simp [List.find?, hc]

theorem partsFold_snd (parts : List MailPart) :
    ∀ acc : String × String,
    (parts.foldl partsStep acc).2 =
      if acc.2 = "" then
        match parts.find? isPlainCandidate with
        | some p => safeUTF8String (decodePart p.cte p.body)
        | none => ""
      else acc.2 := by
  induction parts with
  | nil =>
    intro acc
    by_cases h : acc.2 = "" <;> simp [h]
  | cons p ps ih =>
    intro acc
    by_cases hacc : acc.2 = ""
    · by_cases hc : isPlainCandidate p = true
      · have hval : safeUTF8String (decodePart p.cte p.body) ≠ "" :=
          ((isPlainCandidate_iff p).1 hc).2.2.2
        have hstep : (partsStep acc p).2 = safeUTF8String (decodePart p.cte p.body) := by
          rw [partsStep_snd, if_pos ⟨hc, hacc⟩]
        rw [List.foldl_cons, ih (partsStep acc p), hstep, if_neg hval, if_pos hacc,
          List.find?_cons_of_pos _ hc]
      · have hstep : (partsStep acc p).2 = acc.2 := by
          rw [partsStep_snd, if_neg (fun hh => hc hh.1)]
        rw [List.foldl_cons, ih (partsStep acc p), hstep, if_pos hacc, if_pos hacc,
          List.find?_cons_of_neg _ (by simp [hc])]
    · have hstep : (partsStep acc p).2 = acc.2 := by
        rw [partsStep_snd, if_neg (fun hh => hacc hh.2)]
      rw [List.foldl_cons, ih (partsStep acc p), hstep, if_neg hacc, if_neg hacc]

/-- Claim C3 counterexample: a multi-part body with two non-empty inline
`text/html` parts (data bytes `[65]` = `A`, then `[66]` = `B`, both valid
UTF-8 so sanitization keeps them).  The claim says the first HTML part
wins and later HTML parts are ignored, which would yield `A`;
`parseBody` actually keeps the second part, `B`: later non-empty HTML
parts overwrite earlier ones. -/
theorem c3_first_html_wins_counterexample :
    parseBody (BodyStream.parsed
        [⟨true, "text/html", "", [65]⟩, ⟨true, "text/html", "", [66]⟩] none)
      = Except.ok (safeUTF8String [66]) ∧
    safeUTF8String [66] ≠ safeUTF8String [65] := by
  constructor
  · rfl
  · decide

/-- Claim C3 (amended): when a multi-part body holds several inline
`text/html` parts, the LAST part with non-empty raw decoded data is the
HTML candidate — each later such part overwrites the earlier one
(`parts.reverse.find?`) — and what is kept is its SANITIZED content: when
every byte of that last part is invalid UTF-8 the candidate becomes the
empty string and the handler falls back to the plain candidate.
First-wins holds only for `text/plain` parts: the first inline plain part
whose sanitized decoded data is non-empty is kept and later plain parts
are ignored (`parts.find?`). -/
theorem c3_candidate_selection_amended (parts : List MailPart) :
    parseBody (BodyStream.parsed parts none) =
      (match parts.reverse.find? isHtmlCandidate with
       | some p =>
         if safeUTF8String (decodePart p.cte p.body) = "" then
           (match parts.find? isPlainCandidate with
            | some q => Except.ok (escapeText (safeUTF8String (decodePart q.cte q.body)))
            | none => Except.ok "")
         else Except.ok (safeUTF8String (decodePart p.cte p.body))
       | none =>
         (match parts.find? isPlainCandidate with
          | some q => Except.ok (escapeText (safeUTF8String (decodePart q.cte q.body)))
          | none => Except.ok "")) := by
  have h1 := partsFold_fst parts ("", "")
  have h2 := partsFold_snd parts ("", "")
  rw [if_pos rfl] at h2
  have plainFB : (if (parts.foldl partsStep ("", "")).2 ≠ "" then
        Except.ok (escapeText (parts.foldl partsStep ("", "")).2)
      else Except.ok "")
      = (match parts.find? isPlainCandidate with
         | some q => Except.ok (escapeText (safeUTF8String (decodePart q.cte q.body)))
         | none => (Except.ok "" : Except String String)) := by
    cases hp : parts.find? isPlainCandidate with
    | some q =>
      rw [hp] at h2
      have hv := ((isPlainCandidate_iff q).1 (List.find?_some hp)).2.2.2
      rw [if_pos (show (parts.foldl partsStep ("", "")).2 ≠ "" from by
        rw [h2]; exact hv), h2]
    | none =>
      rw [hp] at h2
      rw [if_neg (fun hne => hne h2)]
  simp only [parseBody]
  cases hh : parts.reverse.find? isHtmlCandidate with
  | some p =>
    rw [hh] at h1
    dsimp only
    by_cases hv : safeUTF8String (decodePart p.cte p.body) = ""
    · rw [if_pos hv]
      rw [if_neg (show ¬ (parts.foldl partsStep ("", "")).1 ≠ "" from
        fun hne => hne (h1.trans hv))]
      exact plainFB
    · rw [if_neg hv]
      rw [if_pos (show (parts.foldl partsStep ("", "")).1 ≠ "" from by
        rw [h1]; exact hv), h1]
  | none =>
    rw [hh] at h1
    dsimp only
    rw [if_neg (fun hne => hne h1)]
    exact plainFB

/-- Claim C4 counterexample: a stream that parses up front but whose part
walk fails mid-way (`NextPart` returns a non-EOF error after one part).
`parseBody` returns that failure as a hard error instead of degrading to
escaped text, so a parse failure IS propagated when it happens mid-walk. -/
theorem c4_never_hard_error_counterexample :
    parseBody (BodyStream.parsed [⟨true, "text/plain", "", [72, 105]⟩]
        (some "NextPart: unexpected EOF"))
      = Except.error "NextPart: unexpected EOF" := rfl

/-- Claim C4 (amended): an up-front parse failure (`mail.CreateReader`
fails) degrades to the HTML-escaped remaining raw bytes with a nil error,
and a nil body yields the empty string with a nil error; but a failure
while iterating parts mid-walk is returned as a hard error, discarding any
parts already walked. -/
theorem c4_degrade_policy_amended :
    (∀ raw : List Nat, parseBody (BodyStream.unparsable raw)
        = Except.ok (escapeText (stringOfBytes raw))) ∧
    (∀ parts : List MailPart, ∀ e : String,
        parseBody (BodyStream.parsed parts (some e)) = Except.error e) ∧
    parseBody BodyStream.noBody = Except.ok "" :=
  ⟨fun _ => rfl, fun _ _ => rfl, rfl⟩

/-! ### Theorems: credential vault (C6) -/

theorem b64sex_b64chr : ∀ s : Nat, s < 64 → b64sex (b64chr s) = some s := by decide

theorem b64chr_ne_61 : ∀ s : Nat, s < 64 → b64chr s ≠ 61 := by decide

theorem b64decode_b64encode : ∀ bs : List Nat, (∀ b ∈ bs, b < 256) →
    b64decode (b64encode bs) = some bs := by
  have main : ∀ n : Nat, ∀ bs : List Nat, bs.length ≤ n → (∀ b ∈ bs, b < 256) →
      b64decode (b64encode bs) = some bs := by
    intro n
    induction n with
    | zero =>
      intro bs hlen _
      have hnil : bs = [] := List.eq_nil_of_length_eq_zero (by omega)
      subst hnil
      rfl
    | succ m ih =>
      intro bs
      match bs with
      | [] => intro _ _; rfl
      | [b1] =>
        intro _ hb
        have h1 : b1 < 256 := hb b1 (by simp)
        have e1 := b64sex_b64chr (b1 / 4) (by omega)
        have e2 := b64sex_b64chr (b1 % 4 * 16) (by omega)
        simp only [b64encode, b64decode, e1, e2, and_self, if_true, if_pos]
        congr 1
        have q1 : b1 / 4 * 4 + b1 % 4 * 16 / 16 = b1 := by omega
        rw [q1]
      | [b1, b2] =>
        intro _ hb
        have h1 : b1 < 256 := hb b1 (by simp)
        have h2 : b2 < 256 := hb b2 (by simp)
        have e1 := b64sex_b64chr (b1 / 4) (by omega)
        have e2 := b64sex_b64chr (b1 % 4 * 16 + b2 / 16) (by omega)
        have e3 := b64sex_b64chr (b2 % 16 * 4) (by omega)
        have hne := b64chr_ne_61 (b2 % 16 * 4) (by omega)
        simp only [b64encode, b64decode, e1, e2, e3, if_neg hne, if_true, if_pos]
        have q1 : b1 / 4 * 4 + (b1 % 4 * 16 + b2 / 16) / 16 = b1 := by omega
        have q2 : (b1 % 4 * 16 + b2 / 16) % 16 * 16 + b2 % 16 * 4 / 4 = b2 := by omega
        rw [q1, q2]
      | [b1, b2, b3] =>
        intro _ hb
        have h1 : b1 < 256 := hb b1 (by simp)
        have h2 : b2 < 256 := hb b2 (by simp)
        have h3 : b3 < 256 := hb b3 (by simp)
        have e1 := b64sex_b64chr (b1 / 4) (by omega)
        have e2 := b64sex_b64chr (b1 % 4 * 16 + b2 / 16) (by omega)
        have e3 := b64sex_b64chr (b2 % 16 * 4 + b3 / 64) (by omega)
        have e4 := b64sex_b64chr (b3 % 64) (by omega)
        have hne3 := b64chr_ne_61 (b2 % 16 * 4 + b3 / 64) (by omega)
        have hne4 := b64chr_ne_61 (b3 % 64) (by omega)
        simp only [b64encode, b64decode, e1, e2, e3, e4, if_neg hne3, if_neg hne4,
          Option.map_some]
        have q1 : b1 / 4 * 4 + (b1 % 4 * 16 + b2 / 16) / 16 = b1 := by omega
        have q2 : (b1 % 4 * 16 + b2 / 16) % 16 * 16 + (b2 % 16 * 4 + b3 / 64) / 4 = b2 := by
          omega
        have q3 : (b2 % 16 * 4 + b3 / 64) % 4 * 64 + b3 % 64 = b3 := by omega
        rw [q1, q2, q3]
        rfl
      | b1 :: b2 :: b3 :: b4 :: rest =>
        intro hlen hb
        have h1 : b1 < 256 := hb b1 (by simp)
        have h2 : b2 < 256 := hb b2 (by simp)
        have h3 : b3 < 256 := hb b3 (by simp)
        have e1 := b64sex_b64chr (b1 / 4) (by omega)
        have e2 := b64sex_b64chr (b1 % 4 * 16 + b2 / 16) (by omega)
        have e3 := b64sex_b64chr (b2 % 16 * 4 + b3 / 64) (by omega)
        have e4 := b64sex_b64chr (b3 % 64) (by omega)
        have hne3 := b64chr_ne_61 (b2 % 16 * 4 + b3 / 64) (by omega)
        have hne4 := b64chr_ne_61 (b3 % 64) (by omega)
        have hrest : b64decode (b64encode (b4 :: rest)) = some (b4 :: rest) := by
          refine ih (b4 :: rest) ?_ (fun x hx => hb x (by simp at hx ⊢; tauto))
          simp at hlen ⊢
          omega
        simp only [b64encode, b64decode, e1, e2, e3, e4, if_neg hne3, if_neg hne4, hrest,
          Option.map_some]
        have q1 : b1 / 4 * 4 + (b1 % 4 * 16 + b2 / 16) / 16 = b1 := by omega
        have q2 : (b1 % 4 * 16 + b2 / 16) % 16 * 16 + (b2 % 16 * 4 + b3 / 64) / 4 = b2 := by
          omega
        have q3 : (b2 % 16 * 4 + b3 / 64) % 4 * 64 + b3 % 64 = b3 := by omega
        rw [q1, q2, q3]
        rfl
  intro bs hb
  exact main bs.length bs le_rfl hb

theorem xorBytes_length (a : List Nat) : ∀ k : List Nat,
    (xorBytes a k).length = min a.length k.length := by
  induction a with
  | nil => intro k; cases k <;> simp [xorBytes]
  | cons p ps ih =>
    intro k
    cases k with
    | nil => simp [xorBytes]
    | cons x xs =>
      simp only [xorBytes, List.length_cons, ih xs]
      omega

theorem xorBytes_xorBytes (a : List Nat) : ∀ k : List Nat, a.length ≤ k.length →
    xorBytes (xorBytes a k) k = a := by
  induction a with
  | nil => intro k _; cases k <;> rfl
  | cons p ps ih =>
    intro k hk
    cases k with
    | nil => simp at hk
    | cons x xs =>
      simp only [xorBytes]
      rw [ih xs (by simpa using hk), Nat.xor_assoc, Nat.xor_self, Nat.xor_zero]

theorem xorBytes_mem_lt (a : List Nat) : ∀ k : List Nat,
    (∀ x ∈ a, x < 256) → (∀ x ∈ k, x < 256) → ∀ x ∈ xorBytes a k, x < 256 := by
  induction a with
  | nil => intro k _ _ x hx; cases k <;> simp [xorBytes] at hx
  | cons p ps ih =>
    intro k ha hk x hx
    cases k with
    | nil => simp [xorBytes] at hx
    | cons y ys =>
      simp only [xorBytes, List.mem_cons] at hx
      rcases hx with h | h
      · subst h
        have h256 : (256 : Nat) = 2 ^ 8 := by norm_num
        rw [h256]
        exact Nat.xor_lt_two_pow (by rw [← h256]; exact ha p (by simp))
          (by rw [← h256]; exact hk y (by simp))
      · exact ih ys (fun z hz => ha z (by simp [hz])) (fun z hz => hk z (by simp [hz])) x h

theorem keystreamFrom_length (E : List Nat → List Nat) (nonce : List Nat)
    (hE : ∀ bs, (E bs).length = 16) :
    ∀ n i, (keystreamFrom E nonce i n).length = 16 * n := by
  intro n
  induction n with
  | zero => intro i; rfl
  | succ m ih =>
    intro i
    simp only [keystreamFrom, List.length_append, hE, ih]
    omega

theorem keystreamFrom_mem_lt (E : List Nat → List Nat) (nonce : List Nat)
    (hEb : ∀ bs, ∀ b ∈ E bs, b < 256) :
    ∀ n i, ∀ b ∈ keystreamFrom E nonce i n, b < 256 := by
  intro n
  induction n with
  | zero => intro i b hb; simp [keystreamFrom] at hb
  | succ m ih =>
    intro i b hb
    simp only [keystreamFrom, List.mem_append] at hb
    rcases hb with h | h
    · exact hEb _ b h
    · exact ih (i + 1) b h

theorem ctrCrypt_length (E : List Nat → List Nat) (nonce data : List Nat)
    (hE : ∀ bs, (E bs).length = 16) :
    (ctrCrypt E nonce data).length = data.length := by
  unfold ctrCrypt keystream
  rw [xorBytes_length, keystreamFrom_length E nonce hE]
  omega

theorem ctrCrypt_mem_lt (E : List Nat → List Nat) (nonce data : List Nat)
    (hEb : ∀ bs, ∀ b ∈ E bs, b < 256) (hd : ∀ b ∈ data, b < 256) :
    ∀ b ∈ ctrCrypt E nonce data, b < 256 := by
  unfold ctrCrypt keystream
  exact xorBytes_mem_lt data _ hd (keystreamFrom_mem_lt E nonce hEb _ _)

theorem ctrCrypt_ctrCrypt (E : List Nat → List Nat) (nonce data : List Nat)
    (hE : ∀ bs, (E bs).length = 16) :
    ctrCrypt E nonce (ctrCrypt E nonce data) = data := by
  unfold ctrCrypt keystream
  have h1 : (xorBytes data (keystreamFrom E nonce 2 ((data.length + 15) / 16))).length
      = data.length := by
    rw [xorBytes_length, keystreamFrom_length E nonce hE]
    omega
  rw [h1]
  exact xorBytes_xorBytes data _ (by rw [keystreamFrom_length E nonce hE]; omega)

theorem natToBytes16_length (x : Nat) : (natToBytes16 x).length = 16 := by
  simp [natToBytes16]

theorem natToBytes16_mem_lt (x : Nat) : ∀ b ∈ natToBytes16 x, b < 256 := by
  intro b hb
  simp only [natToBytes16, List.mem_map, List.mem_range] at hb
  obtain ⟨i, _, hbe⟩ := hb
  rw [← hbe]
  exact Nat.mod_lt _ (by norm_num)

theorem gcmTag_length (E : List Nat → List Nat) (nonce ct : List Nat)
    (hE : ∀ bs, (E bs).length = 16) : (gcmTag E nonce ct).length = 16 := by
  unfold gcmTag
  rw [xorBytes_length, natToBytes16_length, hE]
  omega

theorem gcmTag_mem_lt (E : List Nat → List Nat) (nonce ct : List Nat)
    (hEb : ∀ bs, ∀ b ∈ E bs, b < 256) : ∀ b ∈ gcmTag E nonce ct, b < 256 := by
  unfold gcmTag
  exact xorBytes_mem_lt _ _ (natToBytes16_mem_lt _) (hEb _)

theorem gcmSeal_length (E : List Nat → List Nat) (nonce pt : List Nat)
    (hE : ∀ bs, (E bs).length = 16) :
    (gcmSeal E nonce pt).length = pt.length + 16 := by
  unfold gcmSeal
  rw [List.length_append, ctrCrypt_length E nonce pt hE, gcmTag_length E nonce _ hE]

theorem gcmSeal_mem_lt (E : List Nat → List Nat) (nonce pt : List Nat)
    (hEb : ∀ bs, ∀ b ∈ E bs, b < 256) (hpt : ∀ b ∈ pt, b < 256) :
    ∀ b ∈ gcmSeal E nonce pt, b < 256 := by
  unfold gcmSeal
  intro b hb
  rcases List.mem_append.1 hb with h | h
  · exact ctrCrypt_mem_lt E nonce pt hEb hpt b h
  · exact gcmTag_mem_lt E nonce _ hEb b h

theorem gcmOpen_gcmSeal (E : List Nat → List Nat) (nonce pt : List Nat)
    (hE : ∀ bs, (E bs).length = 16) :
    gcmOpen E nonce (gcmSeal E nonce pt) = some pt := by
  have hct := ctrCrypt_length E nonce pt hE
  have htag := gcmTag_length E nonce (ctrCrypt E nonce pt) hE
  unfold gcmSeal gcmOpen
  have hlen : (ctrCrypt E nonce pt ++ gcmTag E nonce (ctrCrypt E nonce pt)).length
      = pt.length + 16 := by
    rw [List.length_append, hct, htag]
  rw [hlen, if_neg (by omega)]
  have hidx : pt.length + 16 - 16 = (ctrCrypt E nonce pt).length := by omega
  rw [hidx, List.take_left, List.drop_left, if_pos rfl, ctrCrypt_ctrCrypt E nonce pt hE]

/-- Claim C6: encrypt-then-decrypt round-trip.  For every key (the keyed
AES block permutation `E`, constrained only to map onto 16-byte blocks of
bytes), every 12-byte nonce and every plaintext byte string,
`decryptSecret` applied to the output of `encryptSecret` succeeds and
returns the original plaintext. -/
theorem c6_encrypt_decrypt_roundtrip (E : List Nat → List Nat) (nonce plaintext : List Nat)
    (hElen : ∀ bs, (E bs).length = 16)
    (hEbytes : ∀ bs, ∀ b ∈ E bs, b < 256)
    (hnlen : nonce.length = 12)
    (hnb : ∀ b ∈ nonce, b < 256)
    (hpt : ∀ b ∈ plaintext, b < 256) :
    decryptSecret E (encryptSecret E nonce plaintext) = some plaintext := by
  have hall : ∀ b ∈ nonce ++ gcmSeal E nonce plaintext, b < 256 := by
    intro b hb
    rcases List.mem_append.1 hb with h | h
    · exact hnb b h
    · exact gcmSeal_mem_lt E nonce plaintext hEbytes hpt b h
  unfold encryptSecret decryptSecret
  rw [b64decode_b64encode _ hall]
  have hlen : (nonce ++ gcmSeal E nonce plaintext).length = plaintext.length + 28 := by
    rw [List.length_append, hnlen, gcmSeal_length E nonce plaintext hElen]
    omega
  simp only []
  rw [hlen, if_neg (by omega), List.take_left' hnlen, List.drop_left' hnlen]
  exact gcmOpen_gcmSeal E nonce plaintext hElen

/-- Claim C6 witness: a concrete block function, nonce and plaintext
satisfying every hypothesis, with the round-trip conclusion obtained from
the theorem. -/
theorem c6_encrypt_decrypt_roundtrip_witness :
    ((List.replicate 12 1 : List Nat).length = 12) ∧
    decryptSecret (fun _ => List.replicate 16 7)
        (encryptSecret (fun _ => List.replicate 16 7) (List.replicate 12 1) [104, 105])
      = some [104, 105] :=
  ⟨by decide,
    c6_encrypt_decrypt_roundtrip (fun _ => List.replicate 16 7) (List.replicate 12 1)
      [104, 105] (fun _ => by simp) (fun bs b hb => by simp at hb; omega)
      (by decide) (by decide) (by decide)⟩

/-! ### Theorems: account selection and decrypt failure (C5) -/

/-- Claim C5 counterexample: a stored secret whose decryption fails (here
byte 37, `%`, which is not valid base64).  `pickImapAccount` does NOT
block: it reports no error and silently keeps the encrypted blob as the
account's password, and the sync engine then presents exactly that blob to
`c.Login` — so a login attempt IS made, with the undecryptable ciphertext
as the credential, rather than surfacing a connection-tier failure. -/
theorem c5_decrypt_blocks_auth_counterexample :
    decryptSecret (fun _ => List.replicate 16 7) [37] = none ∧
    pickImapAccount (some (fun _ => List.replicate 16 7))
        { id := 1, host := "mail.example.com", port := 993, username := "u",
          password := [37], useSSL := true, useStartTLS := false,
          lastUID := 0, lastUIDValidity := 0, createdAt := 0 }
      = Except.ok
        { id := 1, host := "mail.example.com", port := 993, username := "u",
          password := [37], useSSL := true, useStartTLS := false,
          lastUID := 0, lastUIDValidity := 0, createdAt := 0 } ∧
    syncLoginArgs
        { id := 1, host := "mail.example.com", port := 993, username := "u",
          password := [37], useSSL := true, useStartTLS := false,
          lastUID := 0, lastUIDValidity := 0, createdAt := 0 }
      = ("u", [37]) :=
  ⟨rfl, rfl, rfl⟩

/-- Claim C5 (amended): when decryption of a stored non-empty secret
fails, `pickImapAccount` silently keeps the encrypted blob as the password
and reports no error, so authentication is still attempted — the sync
engine logs in with the blob as the credential (and any resulting failure
surfaces as an ordinary login failure of that sync attempt, not as a
decrypt-specific one). -/
theorem c5_decrypt_failure_amended (key : List Nat → List Nat) (row : ImapAccount)
    (hfail : decryptSecret key row.password = none)
    (hne : row.password ≠ []) :
    pickImapAccount (some key) row = Except.ok row ∧
    syncLoginArgs row = (row.username, row.password) := by
  constructor
  · simp only [pickImapAccount, pickImapAccountPassword, if_pos hne, hfail]
  · rfl

/-- Claim C5 witness: the amended statement applied to the concrete
undecryptable secret. -/
theorem c5_decrypt_failure_amended_witness :
    decryptSecret (fun _ => List.replicate 16 7) [37] = none ∧
    pickImapAccount (some (fun _ => List.replicate 16 7))
        { id := 1, host := "mail.example.com", port := 993, username := "u",
          password := [37], useSSL := true, useStartTLS := false,
          lastUID := 0, lastUIDValidity := 0, createdAt := 0 }
      = Except.ok
        { id := 1, host := "mail.example.com", port := 993, username := "u",
          password := [37], useSSL := true, useStartTLS := false,
          lastUID := 0, lastUIDValidity := 0, createdAt := 0 } :=
  ⟨rfl,
    (c5_decrypt_failure_amended (fun _ => List.replicate 16 7)
      { id := 1, host := "mail.example.com", port := 993, username := "u",
        password := [37], useSSL := true, useStartTLS := false,
        lastUID := 0, lastUIDValidity := 0, createdAt := 0 }
      rfl (by decide)).1⟩

/-! ### Theorems: sync engine (C7, C8, C10, C1) -/

theorem countAccountMsgs_delete (msgs : List MsgRow) (a : Nat) :
    countAccountMsgs (deleteAccountMsgs msgs a) a = 0 := by
  unfold countAccountMsgs deleteAccountMsgs
  induction msgs with
  | nil => rfl
  | cons m t ih =>
    by_cases h : m.accountId = a <;> simp [List.filter_cons, h, ih]

/-- Claim C7: a sync run that observes an empty mailbox deletes every
cached row of the account, persists `last_uid = 0` and the observed epoch
(both in the table and in the in-memory account), and is independent of
the fetch data — the run never consults the window fetch or the detail
fetch, so it stops without fetching. -/
theorem c7_empty_mailbox_reset (db : ImapDb) (acc : ImapAccount) (r : SyncRemote)
    (hempty : r.messageCount = 0) :
    countAccountMsgs (syncImapAccount db acc r).1.msgs acc.id = 0 ∧
    (syncImapAccount db acc r).1.lastUid acc.id = 0 ∧
    (syncImapAccount db acc r).1.lastUidValidity acc.id = r.uidValidity ∧
    (syncImapAccount db acc r).2.lastUID = 0 ∧
    (syncImapAccount db acc r).2.lastUIDValidity = r.uidValidity ∧
    (∀ f : List FetchedEnv, ∀ d : Nat → Option MsgDetail,
      syncImapAccount db acc { r with fetched := f, detail := d }
        = syncImapAccount db acc r) := by
  have hrw : syncImapAccount db acc r = syncEmptyReset db acc r.uidValidity := by
    unfold syncImapAccount
    rw [if_pos hempty]
  refine ⟨?_, ?_, ?_, ?_, ?_, ?_⟩
  · rw [hrw]
    exact countAccountMsgs_delete db.msgs acc.id
  · rw [hrw]
    simp [syncEmptyReset]
  · rw [hrw]
    simp [syncEmptyReset]
  · rw [hrw]; rfl
  · rw [hrw]; rfl
  · intro f d
    rw [hrw]
    unfold syncImapAccount
    rw [if_pos (show ({ r with fetched := f, detail := d } : SyncRemote).messageCount = 0
      from hempty)]

/-- Claim C7 witness: one pre-existing cached row and watermark 9, an
empty mailbox observed at epoch 7 — after the run, zero rows and a zero
watermark. -/
theorem c7_empty_mailbox_reset_witness :
    (SyncRemote.mk 0 7 [] (fun _ => none)).messageCount = 0 ∧
    countAccountMsgs (syncImapAccount
        ⟨[⟨1, 4, 7, "s", "f", none, "", "b", ""⟩], fun _ => 9, fun _ => 7⟩
        ⟨1, "h", 993, "u", [], true, false, 9, 7, 0⟩
        ⟨0, 7, [], fun _ => none⟩).1.msgs 1 = 0 ∧
    (syncImapAccount
        ⟨[⟨1, 4, 7, "s", "f", none, "", "b", ""⟩], fun _ => 9, fun _ => 7⟩
        ⟨1, "h", 993, "u", [], true, false, 9, 7, 0⟩
        ⟨0, 7, [], fun _ => none⟩).1.lastUid 1 = 0 :=
  ⟨rfl, (c7_empty_mailbox_reset _ _ _ rfl).1, (c7_empty_mailbox_reset _ _ _ rfl).2.1⟩

theorem syncStep_skip (r : SyncRemote) (acc : ImapAccount) (st : Nat × List MsgRow)
    (e : FetchedEnv) (h : e.uid ≤ acc.lastUID) : syncStep r acc st e = st := by
  unfold syncStep
  rw [if_pos h]

theorem syncStep_fst_mono (r : SyncRemote) (acc : ImapAccount) (st : Nat × List MsgRow)
    (e : FetchedEnv) : st.1 ≤ (syncStep r acc st e).1 := by
  unfold syncStep
  by_cases h1 : e.uid ≤ acc.lastUID
  · rw [if_pos h1]
  · rw [if_neg h1]
    cases r.detail e.uid with
    | none => dsimp only; split_ifs <;> omega
    | some d => dsimp only; split_ifs <;> omega

theorem syncFold_fst_mono (r : SyncRemote) (acc : ImapAccount) :
    ∀ L : List FetchedEnv, ∀ st : Nat × List MsgRow,
    st.1 ≤ (L.foldl (syncStep r acc) st).1 := by
  intro L
  induction L with
  | nil => intro st; exact le_rfl
  | cons e t ih =>
    intro st
    rw [List.foldl_cons]
    exact le_trans (syncStep_fst_mono r acc st e) (ih _)

theorem syncFold_skip_all (r : SyncRemote) (acc : ImapAccount) :
    ∀ L : List FetchedEnv, ∀ st : Nat × List MsgRow,
    (∀ e ∈ L, e.uid ≤ acc.lastUID) → L.foldl (syncStep r acc) st = st := by
  intro L
  induction L with
  | nil => intro st _; rfl
  | cons e t ih =>
    intro st hall
    rw [List.foldl_cons, syncStep_skip r acc st e (hall e (by simp))]
    exact ih st (fun e' he' => hall e' (by simp [he']))

theorem syncEpochReset_rollover (db : ImapDb) (acc : ImapAccount) (v : Nat)
    (h0 : acc.lastUIDValidity ≠ 0) (hdiff : acc.lastUIDValidity ≠ v) :
    syncEpochReset db acc v
      = ({ db with msgs := deleteAccountMsgs db.msgs acc.id },
         { acc with lastUID := 0 }) := by
  unfold syncEpochReset
  rw [if_pos ⟨h0, hdiff⟩]

theorem syncEpochReset_same (db : ImapDb) (acc : ImapAccount) (v : Nat)
    (h : acc.lastUIDValidity = v) : syncEpochReset db acc v = (db, acc) := by
  unfold syncEpochReset
  rw [if_neg (fun hc => hc.2 h)]

theorem syncEpochReset_id (db : ImapDb) (acc : ImapAccount) (v : Nat) :
    (syncEpochReset db acc v).2.id = acc.id := by
  unfold syncEpochReset
  split_ifs <;> rfl

theorem maxPersistedUID_cons (m : MsgRow) (t : List MsgRow) (a e : Nat) :
    maxPersistedUID (m :: t) a e
      = if m.accountId = a ∧ m.uidvalidity = e then max m.uid (maxPersistedUID t a e)
        else maxPersistedUID t a e := by
  unfold maxPersistedUID epochUIDs
  by_cases h1 : m.accountId = a
  · by_cases h2 : m.uidvalidity = e
    · simp [List.filter_cons, h1, h2]
    · simp [List.filter_cons, h1, h2]
  · simp [List.filter_cons, h1]

theorem upsertMsg_cons (m : MsgRow) (t : List MsgRow) (row : MsgRow) :
    upsertMsg (m :: t) row
      = if (m.accountId == row.accountId && m.uid == row.uid
            && m.uidvalidity == row.uidvalidity) then upsertMsg t row
        else m :: upsertMsg t row := by
  unfold upsertMsg
  by_cases hq : (m.accountId == row.accountId && m.uid == row.uid
      && m.uidvalidity == row.uidvalidity) = true
  · simp [List.filter_cons, hq]
    simp only [Bool.and_eq_true, beq_iff_eq] at hq
    exact hq
  · simp only [List.filter_cons]
    rw [if_neg hq]
    simp only [Bool.not_eq_true] at hq
    simp [hq]

theorem maxPersistedUID_upsert (msgs : List MsgRow) (row : MsgRow) (a e : Nat)
    (ha : row.accountId = a) (he : row.uidvalidity = e) :
    maxPersistedUID (upsertMsg msgs row) a e
      = max (maxPersistedUID msgs a e) row.uid := by
  induction msgs with
  | nil =>
    have h0 : upsertMsg [] row = [row] := rfl
    rw [h0, maxPersistedUID_cons, if_pos ⟨ha, he⟩]
    show max row.uid 0 = max 0 row.uid
    omega
  | cons m t ih =>
    rw [upsertMsg_cons]
    by_cases hq : (m.accountId == row.accountId && m.uid == row.uid
        && m.uidvalidity == row.uidvalidity) = true
    · rw [if_pos hq, ih, maxPersistedUID_cons]
      simp only [Bool.and_eq_true, beq_iff_eq] at hq
      rw [if_pos ⟨hq.1.1.trans ha, hq.2.trans he⟩, hq.1.2]
      omega
    · rw [if_neg hq, maxPersistedUID_cons, maxPersistedUID_cons, ih]
      by_cases hk : m.accountId = a ∧ m.uidvalidity = e
      · rw [if_pos hk, if_pos hk]
        omega
      · rw [if_neg hk, if_neg hk]

theorem maxPersistedUID_delete (msgs : List MsgRow) (a e : Nat) :
    maxPersistedUID (deleteAccountMsgs msgs a) a e = 0 := by
  unfold deleteAccountMsgs
  induction msgs with
  | nil => rfl
  | cons m t ih =>
    by_cases h : m.accountId = a
    · simpa [List.filter_cons, h] using ih
    · rw [List.filter_cons]
      rw [show (!(m.accountId == a)) = true by simp [h]]
      simp only [if_true]
      rw [maxPersistedUID_cons, if_neg (fun hc => h hc.1)]
      exact ih

theorem syncFold_watermark (r : SyncRemote) (acc : ImapAccount) :
    ∀ L : List FetchedEnv, ∀ st : Nat × List MsgRow,
    (∀ e ∈ L, acc.lastUID < e.uid → (r.detail e.uid).isSome = true) →
    maxPersistedUID st.2 acc.id r.uidValidity = st.1 →
    maxPersistedUID (L.foldl (syncStep r acc) st).2 acc.id r.uidValidity
      = (L.foldl (syncStep r acc) st).1 := by
  intro L
  induction L with
  | nil => intro st _ h; exact h
  | cons e t ih =>
    intro st hdet hinv
    rw [List.foldl_cons]
    refine ih _ (fun e' he' hgt => hdet e' (by simp [he']) hgt) ?_
    by_cases h1 : e.uid ≤ acc.lastUID
    · rw [syncStep_skip r acc st e h1]
      exact hinv
    · have hs : (r.detail e.uid).isSome = true := hdet e (by simp) (by omega)
      cases hd : r.detail e.uid with
      | none => rw [hd] at hs; simp at hs
      | some d =>
        unfold syncStep
        rw [if_neg h1, hd]
        dsimp only
        rw [maxPersistedUID_upsert _ _ _ _ rfl rfl, hinv]
        dsimp only
        split_ifs with h2 <;> omega

theorem syncLoop_watermark (r : SyncRemote) (acc : ImapAccount) (init : Nat × List MsgRow)
    (hdet : ∀ e ∈ r.fetched, acc.lastUID < e.uid → (r.detail e.uid).isSome = true)
    (hinv : maxPersistedUID init.2 acc.id r.uidValidity = init.1) :
    maxPersistedUID (syncLoop r acc init).2 acc.id r.uidValidity
      = (syncLoop r acc init).1 := by
  unfold syncLoop
  exact syncFold_watermark r acc r.fetched.reverse init
    (fun e he hgt => hdet e (List.mem_reverse.1 he) hgt) hinv

theorem syncStep_epoch_rows (r : SyncRemote) (acc : ImapAccount) (st : Nat × List MsgRow)
    (e : FetchedEnv)
    (h : ∀ m ∈ st.2, m.accountId = acc.id → m.uidvalidity = r.uidValidity) :
    ∀ m ∈ (syncStep r acc st e).2, m.accountId = acc.id →
      m.uidvalidity = r.uidValidity := by
  unfold syncStep
  by_cases h1 : e.uid ≤ acc.lastUID
  · rw [if_pos h1]; exact h
  · rw [if_neg h1]
    cases hd : r.detail e.uid with
    | none => exact h
    | some d =>
      intro m hm hma
      dsimp only at hm
      simp only [upsertMsg] at hm
      rcases List.mem_append.1 hm with hm | hm
      · exact h m (List.mem_of_mem_filter hm) hma
      · simp only [List.mem_singleton] at hm
        subst hm
        rfl

theorem syncFold_epoch_rows (r : SyncRemote) (acc : ImapAccount) :
    ∀ L : List FetchedEnv, ∀ st : Nat × List MsgRow,
    (∀ m ∈ st.2, m.accountId = acc.id → m.uidvalidity = r.uidValidity) →
    ∀ m ∈ (L.foldl (syncStep r acc) st).2, m.accountId = acc.id →
      m.uidvalidity = r.uidValidity := by
  intro L
  induction L with
  | nil => intro st h; exact h
  | cons e t ih =>
    intro st h
    rw [List.foldl_cons]
    exact ih _ (syncStep_epoch_rows r acc st e h)

/-- Claim C8: epoch rollover clears the cache first.  When the mailbox is
non-empty, the stored epoch is non-zero and differs from the observed one,
the in-transaction reset leaves zero cached rows for the account and a
zero watermark before the insert loop starts (the loop demonstrably starts
from exactly that reset state), and consequently every row for the account
in the committed database carries the new epoch. -/
theorem c8_epoch_rollover_clears (db : ImapDb) (acc : ImapAccount) (r : SyncRemote)
    (hne : r.messageCount ≠ 0)
    (h0 : acc.lastUIDValidity ≠ 0)
    (hdiff : acc.lastUIDValidity ≠ r.uidValidity) :
    countAccountMsgs (syncEpochReset db acc r.uidValidity).1.msgs acc.id = 0 ∧
    (syncEpochReset db acc r.uidValidity).2.lastUID = 0 ∧
    (syncImapAccount db acc r).1.msgs
      = (syncLoop r (syncEpochReset db acc r.uidValidity).2
          ((syncEpochReset db acc r.uidValidity).2.lastUID,
            (syncEpochReset db acc r.uidValidity).1.msgs)).2 ∧
    (∀ m ∈ (syncImapAccount db acc r).1.msgs, m.accountId = acc.id →
        m.uidvalidity = r.uidValidity) := by
  have hrs := syncEpochReset_rollover db acc r.uidValidity h0 hdiff
  refine ⟨?_, ?_, ?_, ?_⟩
  · rw [hrs]
    exact countAccountMsgs_delete db.msgs acc.id
  · rw [hrs]
  · unfold syncImapAccount
    rw [if_neg hne]
  · unfold syncImapAccount
    rw [if_neg hne]
    dsimp only
    rw [hrs]
    dsimp only
    unfold syncLoop
    refine syncFold_epoch_rows r { acc with lastUID := 0 } r.fetched.reverse
      (0, deleteAccountMsgs db.msgs acc.id) ?_
    intro m hm hma
    exfalso
    have hkeep := List.of_mem_filter hm
    simp only [Bool.not_eq_true', beq_eq_false_iff_ne, ne_eq] at hkeep
    exact hkeep hma

/-- Claim C8 witness: one old-epoch row (epoch 5), rollover to epoch 7
with one new message — the reset stage holds zero rows and a zero
watermark. -/
theorem c8_epoch_rollover_clears_witness :
    ((⟨1, 7, [⟨12, 100⟩], fun u => if u = 12 then some ⟨"s", "f", none, [], "b"⟩
        else none⟩ : SyncRemote).messageCount ≠ 0) ∧
    countAccountMsgs (syncEpochReset
        ⟨[⟨1, 9, 5, "s", "f", none, "", "b", ""⟩], fun _ => 9, fun _ => 5⟩
        ⟨1, "h", 993, "u", [], true, false, 9, 5, 0⟩ 7).1.msgs 1 = 0 ∧
    (syncEpochReset
        ⟨[⟨1, 9, 5, "s", "f", none, "", "b", ""⟩], fun _ => 9, fun _ => 5⟩
        ⟨1, "h", 993, "u", [], true, false, 9, 5, 0⟩ 7).2.lastUID = 0 :=
  ⟨by decide,
    (c8_epoch_rollover_clears
      ⟨[⟨1, 9, 5, "s", "f", none, "", "b", ""⟩], fun _ => 9, fun _ => 5⟩
      ⟨1, "h", 993, "u", [], true, false, 9, 5, 0⟩
      ⟨1, 7, [⟨12, 100⟩], fun u => if u = 12 then some ⟨"s", "f", none, [], "b"⟩
        else none⟩ (by decide) (by decide) (by decide)).1,
    (c8_epoch_rollover_clears
      ⟨[⟨1, 9, 5, "s", "f", none, "", "b", ""⟩], fun _ => 9, fun _ => 5⟩
      ⟨1, "h", 993, "u", [], true, false, 9, 5, 0⟩
      ⟨1, 7, [⟨12, 100⟩], fun u => if u = 12 then some ⟨"s", "f", none, [], "b"⟩
        else none⟩ (by decide) (by decide) (by decide)).2.1⟩

/-- Claim C10 counterexample: a run whose observed epoch (7) equals the
stored epoch but whose mailbox is empty.  The empty-mailbox branch resets
the watermark to 0, strictly below the prior watermark 5 — so "the
watermark never decreases when the epoch is unchanged" fails as stated. -/
theorem c10_watermark_monotone_counterexample :
    (⟨0, 7, [], fun _ => none⟩ : SyncRemote).uidValidity
      = (⟨1, "h", 993, "u", [], true, false, 5, 7, 0⟩ : ImapAccount).lastUIDValidity ∧
    (syncImapAccount ⟨[], fun i => if i = 1 then 5 else 0, fun _ => 7⟩
        ⟨1, "h", 993, "u", [], true, false, 5, 7, 0⟩
        ⟨0, 7, [], fun _ => none⟩).2.lastUID
      < (⟨1, "h", 993, "u", [], true, false, 5, 7, 0⟩ : ImapAccount).lastUID := by
  exact ⟨rfl, by decide⟩

/-- Claim C10 (amended): when the mailbox is NON-EMPTY and the observed
epoch equals the stored epoch, the watermark never decreases (`maxUID`
starts at the prior `last_uid` and is only raised), the committed table
watermark equals the in-memory one, and a re-run in which no fetched UID
exceeds the watermark leaves both the message rows and the watermark
unchanged.  (The empty-mailbox branch is excluded: it deliberately resets
the watermark to 0 even within the same epoch.) -/
theorem c10_watermark_monotone_amended (db : ImapDb) (acc : ImapAccount) (r : SyncRemote)
    (hne : r.messageCount ≠ 0)
    (hsame : acc.lastUIDValidity = r.uidValidity) :
    acc.lastUID ≤ (syncImapAccount db acc r).2.lastUID ∧
    (syncImapAccount db acc r).1.lastUid acc.id = (syncImapAccount db acc r).2.lastUID ∧
    ((∀ e ∈ r.fetched, e.uid ≤ acc.lastUID) →
      (syncImapAccount db acc r).1.msgs = db.msgs ∧
      (syncImapAccount db acc r).2.lastUID = acc.lastUID) := by
  have hr := syncEpochReset_same db acc r.uidValidity hsame
  unfold syncImapAccount
  rw [if_neg hne, hr]
  dsimp only
  refine ⟨?_, ?_, ?_⟩
  · unfold syncLoop
    exact syncFold_fst_mono r acc r.fetched.reverse (acc.lastUID, db.msgs)
  · simp
  · intro hall
    have hskip : syncLoop r acc (acc.lastUID, db.msgs) = (acc.lastUID, db.msgs) := by
      unfold syncLoop
      exact syncFold_skip_all r acc r.fetched.reverse (acc.lastUID, db.msgs)
        (fun e he => hall e (List.mem_reverse.1 he))
    rw [hskip]
    exact ⟨rfl, rfl⟩

/-- Claim C10 witness: non-empty mailbox, unchanged epoch 7, one fetched
message at or below the watermark 5 — the watermark and the rows are
unchanged. -/
theorem c10_watermark_monotone_amended_witness :
    ((⟨1, 7, [⟨3, 100⟩], fun _ => none⟩ : SyncRemote).messageCount ≠ 0) ∧
    (5 : Nat) ≤ (syncImapAccount ⟨[], fun _ => 5, fun _ => 7⟩
        ⟨1, "h", 993, "u", [], true, false, 5, 7, 0⟩
        ⟨1, 7, [⟨3, 100⟩], fun _ => none⟩).2.lastUID ∧
    ((syncImapAccount ⟨[], fun _ => 5, fun _ => 7⟩
        ⟨1, "h", 993, "u", [], true, false, 5, 7, 0⟩
        ⟨1, 7, [⟨3, 100⟩], fun _ => none⟩).1.msgs = [] ∧
      (syncImapAccount ⟨[], fun _ => 5, fun _ => 7⟩
        ⟨1, "h", 993, "u", [], true, false, 5, 7, 0⟩
        ⟨1, 7, [⟨3, 100⟩], fun _ => none⟩).2.lastUID = 5) :=
  ⟨by decide,
    (c10_watermark_monotone_amended ⟨[], fun _ => 5, fun _ => 7⟩
      ⟨1, "h", 993, "u", [], true, false, 5, 7, 0⟩
      ⟨1, 7, [⟨3, 100⟩], fun _ => none⟩ (by decide) rfl).1,
    (c10_watermark_monotone_amended ⟨[], fun _ => 5, fun _ => 7⟩
      ⟨1, "h", 993, "u", [], true, false, 5, 7, 0⟩
      ⟨1, 7, [⟨3, 100⟩], fun _ => none⟩ (by decide) rfl).2.2 (by decide)⟩

/-- Claim C1 counterexample: two new messages (UIDs 3 and 5) are fetched
above the watermark 0; the detail round trip succeeds for UID 3 but fails
for UID 5.  The loop raises `maxUID` to 5 before the failed detail fetch
and the run still commits successfully, so the persisted watermark is 5
while the maximum UID among the rows actually persisted for epoch 7 is 3. -/
theorem c1_last_uid_counterexample :
    (syncImapAccount ⟨[], fun _ => 0, fun _ => 0⟩
        ⟨1, "h", 993, "u", [], true, false, 0, 0, 0⟩
        ⟨2, 7, [⟨5, 100⟩, ⟨3, 100⟩],
          fun u => if u = 3 then some ⟨"s", "f", some 10, [], "b"⟩ else none⟩).1.lastUid 1
      = 5 ∧
    maxPersistedUID (syncImapAccount ⟨[], fun _ => 0, fun _ => 0⟩
        ⟨1, "h", 993, "u", [], true, false, 0, 0, 0⟩
        ⟨2, 7, [⟨5, 100⟩, ⟨3, 100⟩],
          fun u => if u = 3 then some ⟨"s", "f", some 10, [], "b"⟩ else none⟩).1.msgs 1 7
      = 3 ∧
    (5 : Nat) ≠ 3 := by
  refine ⟨by decide, by decide, by decide⟩

/-- Claim C1 (amended): after a successful sync in which every fetched
message above the effective watermark (the stored `last_uid`, or 0 after
an epoch rollover) has a successful detail fetch, and given that the
watermark invariant held on entry to the insert loop, the persisted
`last_uid` equals the maximum UID among the rows persisted for the
account's current epoch (0 for an empty mailbox, which keeps zero rows).
Without the detail-fetch condition the committed watermark can exceed
every persisted row's UID, because a failed detail fetch skips the insert
but keeps the raised `maxUID`. -/
theorem c1_last_uid_equals_max_amended (db : ImapDb) (acc : ImapAccount) (r : SyncRemote)
    (hdet : ∀ e ∈ r.fetched,
        (syncEpochReset db acc r.uidValidity).2.lastUID < e.uid →
        (r.detail e.uid).isSome = true)
    (hpre : maxPersistedUID (syncEpochReset db acc r.uidValidity).1.msgs acc.id
          r.uidValidity
        = (syncEpochReset db acc r.uidValidity).2.lastUID) :
    (syncImapAccount db acc r).1.lastUid acc.id
        = maxPersistedUID (syncImapAccount db acc r).1.msgs acc.id r.uidValidity ∧
    (syncImapAccount db acc r).2.lastUID
        = maxPersistedUID (syncImapAccount db acc r).1.msgs acc.id r.uidValidity := by
  by_cases hc : r.messageCount = 0
  · unfold syncImapAccount
    rw [if_pos hc]
    unfold syncEmptyReset
    dsimp only
    constructor
    · rw [if_pos rfl, maxPersistedUID_delete]
    · rw [maxPersistedUID_delete]
  · have hid := syncEpochReset_id db acc r.uidValidity
    have key := syncLoop_watermark r (syncEpochReset db acc r.uidValidity).2
      ((syncEpochReset db acc r.uidValidity).2.lastUID,
        (syncEpochReset db acc r.uidValidity).1.msgs)
      hdet (by rw [hid]; exact hpre)
    rw [hid] at key
    unfold syncImapAccount
    rw [if_neg hc]
    dsimp only
    rw [hid]
    constructor
    · rw [if_pos rfl]
      exact key.symm
    · exact key.symm

/-- Claim C1 witness: one new message above the watermark whose detail
fetch succeeds — the committed watermark equals the single persisted UID. -/
theorem c1_last_uid_equals_max_amended_witness :
    maxPersistedUID (syncEpochReset
        ⟨[], fun _ => 0, fun _ => 0⟩
        ⟨1, "h", 993, "u", [], true, false, 0, 0, 0⟩ 7).1.msgs 1 7
      = (syncEpochReset ⟨[], fun _ => 0, fun _ => 0⟩
        ⟨1, "h", 993, "u", [], true, false, 0, 0, 0⟩ 7).2.lastUID ∧
    (syncImapAccount ⟨[], fun _ => 0, fun _ => 0⟩
        ⟨1, "h", 993, "u", [], true, false, 0, 0, 0⟩
        ⟨1, 7, [⟨3, 100⟩],
          fun u => if u = 3 then some ⟨"s", "f", none, [], "b"⟩ else none⟩).1.lastUid 1
      = maxPersistedUID (syncImapAccount ⟨[], fun _ => 0, fun _ => 0⟩
        ⟨1, "h", 993, "u", [], true, false, 0, 0, 0⟩
        ⟨1, 7, [⟨3, 100⟩],
          fun u => if u = 3 then some ⟨"s", "f", none, [], "b"⟩ else none⟩).1.msgs 1 7 :=
  ⟨by decide,
    (c1_last_uid_equals_max_amended ⟨[], fun _ => 0, fun _ => 0⟩
      ⟨1, "h", 993, "u", [], true, false, 0, 0, 0⟩
      ⟨1, 7, [⟨3, 100⟩],
        fun u => if u = 3 then some ⟨"s", "f", none, [], "b"⟩ else none⟩
      (by decide) (by decide)).1⟩
